import Mathlib

/-!
# Verification of the aili5 pipeline execution and tool-resolution engine

Shallow embedding of the core logic of the aili5 pipeline builder
(tool-name generation/sanitization/parsing, scoped tool resolution,
context accumulation, output routing, and the genie self-inference
state transitions), together with proofs and refutations of the
specification's testable properties.

Strings from the TypeScript source are modelled as `List Char`
(`Str` below), so that every character-level operation of the source
(regex replacement, collapsing, trimming, truncation, splitting on
underscores) has a direct, executable counterpart.
-/

namespace Aili5

/-- JavaScript strings, modelled as lists of characters. -/
abbrev Str := List Char

/-- A character allowed by the tool-name pattern `[a-zA-Z0-9_-]`
(`a-z`, `A-Z`, `0-9`, underscore, hyphen). -/
def validChar (c : Char) : Bool :=
  c.isAlpha || c.isDigit || c = '_' || c = '-'

/-- `name.replace(/[^a-zA-Z0-9_-]/g, "_")`: every character outside the
allowed class becomes an underscore. -/
def replaceInvalid (s : Str) : Str :=
  s.map (fun c => if validChar c then c else '_')

/-- `sanitized.replace(/_+/g, "_")`: collapse every run of consecutive
underscores to a single underscore. -/
def collapseUnderscores : Str → Str
  | [] => []
  | [c] => [c]
  | a :: b :: rest =>
    if a = '_' ∧ b = '_' then collapseUnderscores (b :: rest)
    else a :: collapseUnderscores (b :: rest)

/-- The leading-underscore half of `replace(/^_+|_+$/g, "")`. -/
def trimLead : Str → Str
  | [] => []
  | c :: rest => if c = '_' then trimLead rest else c :: rest

/-- The trailing-underscore half of `replace(/^_+|_+$/g, "")`. -/
def trimTrail : Str → Str
  | [] => []
  | c :: rest =>
    match trimTrail rest with
    | [] => if c = '_' then [] else [c]
    | r => c :: r

/-- `sanitizeCustomName` (src/lib/tools.ts): replace invalid characters
with underscores, collapse consecutive underscores, strip leading and
trailing underscores, fall back to `"custom"` when empty, truncate to
128 characters. -/
def sanitizeCustomName (s : Str) : Str :=
  let s1 := replaceInvalid s
  let s2 := collapseUnderscores s1
  let s3 := trimTrail (trimLead s2)
  let s4 := if s3 = [] then "custom".toList else s3
  s4.take 128

/-- The tool-name pattern `^[a-zA-Z0-9_-]{1,128}$` as a Boolean test. -/
def validToolName (s : Str) : Bool :=
  decide (1 ≤ s.length) && decide (s.length ≤ 128) && s.all validChar

/-- `validateAndSanitizeToolName` (src/lib/tools.ts): accept a name that
already matches the pattern; otherwise sanitize it the same way as
`sanitizeCustomName` but with the `"tool"` fallback, and fall back to
`"tool"` if the result still fails the pattern. -/
def validateAndSanitizeToolName (s : Str) : Str :=
  if validToolName s then s
  else
    let s1 := replaceInvalid s
    let s2 := collapseUnderscores s1
    let s3 := trimTrail (trimLead s2)
    let s4 := if s3 = [] then "tool".toList else s3
    let s5 := s4.take 128
    if validToolName s5 then s5 else "tool".toList

example : sanitizeCustomName "weather!".toList = "weather".toList := by decide
example : sanitizeCustomName "a__b".toList = "a_b".toList := by decide
example : sanitizeCustomName "  ".toList = "custom".toList := by decide

/-- Absence of two consecutive underscores. -/
def NoAdj : Str → Prop
  | a :: b :: rest => ¬(a = '_' ∧ b = '_') ∧ NoAdj (b :: rest)
  | _ => True

lemma noAdj_nil : NoAdj [] := trivial

lemma noAdj_single (c : Char) : NoAdj [c] := trivial

lemma noAdj_tail {a : Char} {l : Str} (h : NoAdj (a :: l)) : NoAdj l := by
  cases l with
  | nil => trivial
  | cons b rest => exact h.2

lemma mem_replaceInvalid {c : Char} {s : Str} (h : c ∈ replaceInvalid s) :
    validChar c = true := by
  simp only [replaceInvalid, List.mem_map] at h
  obtain ⟨a, _, ha⟩ := h
  by_cases hv : validChar a = true
  · rw [if_pos hv] at ha
    rw [← ha]
    exact hv
  · rw [if_neg hv] at ha
    rw [← ha]
    decide

lemma replaceInvalid_eq_self {s : Str} (h : ∀ c ∈ s, validChar c = true) :
    replaceInvalid s = s := by
  induction s with
  | nil => rfl
  | cons a t ih =>
    simp only [replaceInvalid, List.map_cons]
    rw [if_pos (h a (by simp))]
    have := ih (fun c hc => h c (by simp [hc]))
    simpa [replaceInvalid] using this

lemma collapse_cons (a : Char) (l : Str) :
    ∃ t, collapseUnderscores (a :: l) = a :: t := by
  induction l generalizing a with
  | nil => exact ⟨[], rfl⟩
  | cons b rest ih =>
    by_cases h : a = '_' ∧ b = '_'
    · obtain ⟨t, ht⟩ := ih b
      refine ⟨t, ?_⟩
      simp only [collapseUnderscores, if_pos h]
      rw [ht, h.1, h.2]
    · exact ⟨collapseUnderscores (b :: rest), by simp [collapseUnderscores, if_neg h]⟩

lemma noAdj_collapse (l : Str) : NoAdj (collapseUnderscores l) := by
  induction l with
  | nil => trivial
  | cons a t ih =>
    cases t with
    | nil => exact noAdj_single a
    | cons b rest =>
      by_cases h : a = '_' ∧ b = '_'
      · simpa [collapseUnderscores, if_pos h] using ih
      · simp only [collapseUnderscores, if_neg h]
        obtain ⟨t', ht'⟩ := collapse_cons b rest
        rw [ht']
        exact ⟨h, ht' ▸ ih⟩

lemma collapse_eq_self {l : Str} (h : NoAdj l) : collapseUnderscores l = l := by
  induction l with
  | nil => rfl
  | cons a t ih =>
    cases t with
    | nil => rfl
    | cons b rest =>
      simp only [collapseUnderscores, if_neg h.1]
      rw [ih (noAdj_tail h)]

lemma mem_collapse {c : Char} {l : Str} (h : c ∈ collapseUnderscores l) : c ∈ l := by
  induction l with
  | nil =>
    simp [collapseUnderscores] at h
  | cons a t ih =>
    cases t with
    | nil => simpa [collapseUnderscores] using h
    | cons b rest =>
      by_cases hab : a = '_' ∧ b = '_'
      · simp only [collapseUnderscores, if_pos hab] at h
        exact List.mem_cons_of_mem a (ih h)
      · simp only [collapseUnderscores, if_neg hab, List.mem_cons] at h
        rcases h with h | h
        · simp [h]
        · exact List.mem_cons_of_mem a (ih h)

lemma length_collapse_le (l : Str) : (collapseUnderscores l).length ≤ l.length := by
  induction l with
  | nil => simp [collapseUnderscores]
  | cons a t ih =>
    cases t with
    | nil => simp [collapseUnderscores]
    | cons b rest =>
      by_cases hab : a = '_' ∧ b = '_'
      · simp only [collapseUnderscores, if_pos hab]
        have h2 := ih
        simp only [List.length_cons] at h2 ⊢
        omega
      · simp only [collapseUnderscores, if_neg hab, List.length_cons]
        have h2 := ih
        simp only [List.length_cons] at h2
        omega

lemma mem_trimLead {c : Char} {l : Str} (h : c ∈ trimLead l) : c ∈ l := by
  induction l with
  | nil =>
    simp [trimLead] at h
  | cons a t ih =>
    by_cases ha : a = '_'
    · simp only [trimLead, if_pos ha] at h
      exact List.mem_cons_of_mem a (ih h)
    · simpa [trimLead, if_neg ha] using h

lemma noAdj_trimLead {l : Str} (h : NoAdj l) : NoAdj (trimLead l) := by
  induction l with
  | nil => trivial
  | cons a t ih =>
    by_cases ha : a = '_'
    · simp only [trimLead, if_pos ha]
      exact ih (noAdj_tail h)
    · simpa [trimLead, if_neg ha] using h

lemma trimLead_head (l : Str) :
    trimLead l = [] ∨ ∃ c t, trimLead l = c :: t ∧ c ≠ '_' := by
  induction l with
  | nil => exact Or.inl rfl
  | cons a t ih =>
    by_cases ha : a = '_'
    · simpa [trimLead, if_pos ha] using ih
    · exact Or.inr ⟨a, t, by simp [trimLead, if_neg ha], ha⟩

lemma trimLead_eq_self {l : Str} (h : l.head? ≠ some '_') : trimLead l = l := by
  cases l with
  | nil => rfl
  | cons a t =>
    have ha : a ≠ '_' := by
      intro hc
      exact h (by simp [hc])
    simp [trimLead, if_neg ha]

lemma length_trimLead_le (l : Str) : (trimLead l).length ≤ l.length := by
  induction l with
  | nil => simp [trimLead]
  | cons a t ih =>
    by_cases ha : a = '_'
    · simp only [trimLead, if_pos ha]
      exact le_trans ih (by simp)
    · simp [trimLead, if_neg ha]

lemma trimTrail_isPrefix (l : Str) : trimTrail l <+: l := by
  induction l with
  | nil => exact List.prefix_refl []
  | cons c rest ih =>
    simp only [trimTrail]
    cases h : trimTrail rest with
    | nil =>
      by_cases hc : c = '_'
      · simp only [if_pos hc]
        exact List.nil_prefix
      · simp only [if_neg hc]
        exact ⟨rest, rfl⟩
    | cons x xs =>
      rw [h] at ih
      exact List.cons_prefix_cons.mpr ⟨rfl, ih⟩

lemma noAdj_append_left {l t : Str} (h : NoAdj (l ++ t)) : NoAdj l := by
  induction l with
  | nil => trivial
  | cons a l' ih =>
    cases l' with
    | nil => trivial
    | cons b rest =>
      simp only [List.cons_append] at h
      exact ⟨h.1, ih h.2⟩

lemma noAdj_of_prefix {l₁ l₂ : Str} (h : l₁ <+: l₂) (h₂ : NoAdj l₂) : NoAdj l₁ := by
  obtain ⟨t, ht⟩ := h
  exact noAdj_append_left (ht ▸ h₂)

lemma mem_trimTrail {c : Char} {l : Str} (h : c ∈ trimTrail l) : c ∈ l :=
  (trimTrail_isPrefix l).subset h

lemma length_trimTrail_le (l : Str) : (trimTrail l).length ≤ l.length :=
  (trimTrail_isPrefix l).length_le

lemma trimTrail_getLast (l : Str) :
    trimTrail l = [] ∨ (trimTrail l).getLast? ≠ some '_' := by
  induction l with
  | nil => exact Or.inl rfl
  | cons c rest ih =>
    simp only [trimTrail]
    cases h : trimTrail rest with
    | nil =>
      by_cases hc : c = '_'
      · exact Or.inl (by simp [if_pos hc])
      · refine Or.inr ?_
        simp [if_neg hc, hc]
    | cons x xs =>
      refine Or.inr ?_
      rw [List.getLast?_cons_cons]
      rcases ih with ih | ih
      · rw [h] at ih
        exact absurd ih (by simp)
      · rw [h] at ih
        exact ih

lemma trimTrail_eq_self {l : Str} (h : l.getLast? ≠ some '_') : trimTrail l = l := by
  induction l with
  | nil => rfl
  | cons c rest ih =>
    cases rest with
    | nil =>
      have hc : c ≠ '_' := by
        intro hc
        exact h (by simp [hc])
      simp [trimTrail, if_neg hc]
    | cons y ys =>
      have hrest : (y :: ys).getLast? ≠ some '_' := by
        rwa [List.getLast?_cons_cons] at h
      have hstep : trimTrail (c :: y :: ys) =
          match trimTrail (y :: ys) with
          | [] => if c = '_' then [] else [c]
          | r => c :: r := rfl
      rw [hstep, ih hrest]

lemma head?_trimTrail (l : Str) :
    trimTrail l = [] ∨ (trimTrail l).head? = l.head? := by
  cases l with
  | nil => exact Or.inl rfl
  | cons c rest =>
    simp only [trimTrail]
    cases h : trimTrail rest with
    | nil =>
      by_cases hc : c = '_'
      · exact Or.inl (by simp [if_pos hc])
      · exact Or.inr (by simp [if_neg hc])
    | cons x xs => exact Or.inr (by simp)

/-- Any string satisfying all the invariants the sanitizer establishes is a
fixed point of `sanitizeCustomName`. -/
lemma sanitize_fixed {r : Str} (hval : ∀ c ∈ r, validChar c = true) (hadj : NoAdj r)
    (hhead : r.head? ≠ some '_') (hlast : r.getLast? ≠ some '_')
    (hne : r ≠ []) (hlen : r.length ≤ 128) : sanitizeCustomName r = r := by
  simp only [sanitizeCustomName]
  rw [replaceInvalid_eq_self hval, collapse_eq_self hadj, trimLead_eq_self hhead,
    trimTrail_eq_self hlast, if_neg hne, List.take_of_length_le hlen]

lemma s3_valid (x : Str) :
    ∀ c ∈ trimTrail (trimLead (collapseUnderscores (replaceInvalid x))),
      validChar c = true :=
  fun _ hc => mem_replaceInvalid (mem_collapse (mem_trimLead (mem_trimTrail hc)))

lemma s3_noAdj (x : Str) :
    NoAdj (trimTrail (trimLead (collapseUnderscores (replaceInvalid x)))) :=
  noAdj_of_prefix (trimTrail_isPrefix _) (noAdj_trimLead (noAdj_collapse _))

lemma s3_head (x : Str)
    (h : trimTrail (trimLead (collapseUnderscores (replaceInvalid x))) ≠ []) :
    (trimTrail (trimLead (collapseUnderscores (replaceInvalid x)))).head? ≠ some '_' := by
  rcases head?_trimTrail (trimLead (collapseUnderscores (replaceInvalid x))) with he | heq
  · exact absurd he h
  · rw [heq]
    rcases trimLead_head (collapseUnderscores (replaceInvalid x)) with hl | ⟨c, t, hct, hc⟩
    · rw [hl] at heq ⊢
      simp
    · rw [hct]
      simp [hc]

lemma s3_last (x : Str)
    (h : trimTrail (trimLead (collapseUnderscores (replaceInvalid x))) ≠ []) :
    (trimTrail (trimLead (collapseUnderscores (replaceInvalid x)))).getLast? ≠ some '_' := by
  rcases trimTrail_getLast (trimLead (collapseUnderscores (replaceInvalid x))) with he | hg
  · exact absurd he h
  · exact hg

lemma s3_len (x : Str) :
    (trimTrail (trimLead (collapseUnderscores (replaceInvalid x)))).length ≤ x.length := by
  have h1 := length_trimTrail_le (trimLead (collapseUnderscores (replaceInvalid x)))
  have h2 := length_trimLead_le (collapseUnderscores (replaceInvalid x))
  have h3 := length_collapse_le (replaceInvalid x)
  have h4 : (replaceInvalid x).length = x.length := List.length_map x _
  omega

/-- The input on which sanitization is not idempotent: 127 `a`s, an
underscore, then `b` (129 characters in total). Truncation to 128
characters leaves a trailing underscore, which a second pass removes. -/
def truncationEdgeName : Str := List.replicate 127 'a' ++ ['_', 'b']

/-- C3 counterexample: the sanitization function is not idempotent as
claimed; on a 129-character input whose 128th character is an underscore,
a second application strips the underscore the truncation left behind. -/
theorem claim_C3_counterexample :
    sanitizeCustomName (sanitizeCustomName truncationEdgeName) ≠
      sanitizeCustomName truncationEdgeName := by decide

/-- C3 (amended): `sanitizeCustomName` is idempotent on every input of at
most 128 characters (so whenever the 128-character truncation step cannot
cut the string); the claim as stated fails only for longer inputs whose
truncation ends in an underscore. -/
theorem claim_C3_sanitize_idempotent (x : Str) (h : x.length ≤ 128) :
    sanitizeCustomName (sanitizeCustomName x) = sanitizeCustomName x := by
  have hx : sanitizeCustomName x =
      (if trimTrail (trimLead (collapseUnderscores (replaceInvalid x))) = []
        then "custom".toList
        else trimTrail (trimLead (collapseUnderscores (replaceInvalid x)))).take 128 := rfl
  by_cases h3 : trimTrail (trimLead (collapseUnderscores (replaceInvalid x))) = []
  · rw [hx, if_pos h3]
    decide
  · rw [hx, if_neg h3]
    have hlen : (trimTrail (trimLead (collapseUnderscores (replaceInvalid x)))).length ≤ 128 :=
      le_trans (s3_len x) h
    rw [List.take_of_length_le hlen]
    exact sanitize_fixed (s3_valid x) (s3_noAdj x) (s3_head x h3) (s3_last x h3) h3 hlen

/-- C3 witness: the amended idempotence theorem applied at a concrete
short input. -/
theorem claim_C3_witness :
    ("hello world!".toList.length ≤ 128) ∧
      sanitizeCustomName (sanitizeCustomName "hello world!".toList) =
        sanitizeCustomName "hello world!".toList :=
  ⟨by decide, claim_C3_sanitize_idempotent "hello world!".toList (by decide)⟩

/-! ## Pipeline node and tool model (types/pipeline.ts, lib/tools.ts) -/

/-- Node kinds of the pipeline (`NodeType` in types/pipeline.ts). -/
inductive NodeType
  | system_prompt | user_input | url_loader | text_input | inference
  | text_display | color_display | icon_display | emoji_display | gauge_display
  | pixel_art_display | webhook_trigger | survey | genie
  deriving DecidableEq, Repr

/-- Semantic output kinds (`OutputType` in types/pipeline.ts). -/
inductive OutputType
  | color | icon | emoji | gauge | pixel_art | webhook | survey | text
  deriving DecidableEq, Repr

/-- A pipeline node (`PipelineNodeConfig`): id, kind, and the
configuration fields read by the functions embedded here. The TS config
is a per-kind object; `name` is `config.name` (the user-supplied
discriminator of display nodes and the genie identity name), `backstory`
and `autoRespondOnUpdate` belong to `GenieConfig`. Fields no embedded
function reads (labels, display options, model id, temperature) are
omitted. -/
structure PipelineNodeConfig where
  id : Str
  type : NodeType
  name : Option Str
  backstory : Str
  autoRespondOnUpdate : Bool
  deriving DecidableEq, Repr

/-- A tool definition (name and description; the `input_schema` constant
attached in the source is read by no embedded function and is omitted). -/
structure Tool where
  name : Str
  description : Str
  deriving DecidableEq, Repr

/-- `NODE_TYPE_TO_OUTPUT_TYPE` (lib/tools.ts, second revision, with
`emoji_display`). -/
def NODE_TYPE_TO_OUTPUT_TYPE : NodeType → Option OutputType
  | .color_display => some .color
  | .icon_display => some .icon
  | .emoji_display => some .emoji
  | .gauge_display => some .gauge
  | .pixel_art_display => some .pixel_art
  | .webhook_trigger => some .webhook
  | .survey => some .survey
  | _ => none

/-- One entry of `TOOL_TEMPLATES`. -/
structure ToolTemplate where
  outputType : OutputType
  baseToolName : Str
  description : Str
  deriving DecidableEq, Repr

def colorTemplate : ToolTemplate :=
  ⟨.color, "display_color".toList, "Display a color to the user.".toList⟩

def iconTemplate : ToolTemplate :=
  ⟨.icon, "display_icon".toList,
    "Display an icon to represent a concept, status, or emotion.".toList⟩

def emojiTemplate : ToolTemplate :=
  ⟨.emoji, "display_emoji".toList,
    "Display an emoji to represent a concept, emotion, or status.".toList⟩

def gaugeTemplate : ToolTemplate :=
  ⟨.gauge, "display_gauge".toList,
    "Display a numeric value on a gauge or meter.".toList⟩

def pixelArtTemplate : ToolTemplate :=
  ⟨.pixel_art, "generate_pixel_art".toList,
    "Generate pixel art on a grid using color codes.".toList⟩

def webhookTemplate : ToolTemplate :=
  ⟨.webhook, "trigger_webhook".toList, "Make an HTTP request to a URL.".toList⟩

def surveyTemplate : ToolTemplate :=
  ⟨.survey, "ask_survey".toList,
    "Present a multiple choice question to the user.".toList⟩

/-- `TOOL_TEMPLATES` in object-literal insertion order (the order
`Object.entries` iterates in `parseToolName`). -/
def TOOL_TEMPLATES : List ToolTemplate :=
  [colorTemplate, iconTemplate, emojiTemplate, gaugeTemplate,
   pixelArtTemplate, webhookTemplate, surveyTemplate]

/-- `generateToolName` (lib/tools.ts, lines 766-789): validate the base,
sanitize the custom name, splice it after the first underscore-delimited
segment, and validate the final name. The JS guard `if (!customName)`
treats the empty string like an absent name. -/
def generateToolName (baseToolName : Str) (customName : Option Str) : Str :=
  let validatedBase := validateAndSanitizeToolName baseToolName
  match customName with
  | none => validatedBase
  | some custom =>
    if custom = [] then validatedBase
    else
      let sanitized := sanitizeCustomName custom
      match validatedBase.splitOn '_' with
      | p0 :: p1 :: rest =>
        validateAndSanitizeToolName
          (p0 ++ ['_'] ++ sanitized ++ ['_'] ++ List.intercalate ['_'] (p1 :: rest))
      | _ => validateAndSanitizeToolName (validatedBase ++ ['_'] ++ sanitized)

/-- `getToolForNode` (lib/tools.ts): template lookup by output kind, name
generation from the node's custom name, description enhancement. -/
def getToolForNode (node : PipelineNodeConfig) : Option Tool :=
  match NODE_TYPE_TO_OUTPUT_TYPE node.type with
  | none => none
  | some outputType =>
    match TOOL_TEMPLATES.find? (fun t => t.outputType == outputType) with
    | none => none
    | some template =>
      let toolName := generateToolName template.baseToolName node.name
      let description :=
        match node.name with
        | some cn =>
          if cn = [] then template.description
          else template.description ++ " Use this for \"".toList ++ cn ++ "\" output.".toList
        | none => template.description
      some ⟨toolName, description⟩

/-- `getGenieTool` (lib/tools.ts): the `send_message_to_<name>` tool of a
genie node, with `"genie"` as the fallback name. -/
def getGenieTool (node : PipelineNodeConfig) : Option Tool :=
  if node.type = .genie then
    let genieName :=
      match node.name with
      | some n => if n = [] then "genie".toList else n
      | none => "genie".toList
    let sanitizedGenieName := sanitizeCustomName genieName
    let toolName :=
      if sanitizedGenieName = "genie".toList then "send_message_to_genie".toList
      else "send_message_to_".toList ++ sanitizedGenieName
    some ⟨validateAndSanitizeToolName toolName,
      "Send a message to the genie \"".toList ++ genieName ++
        "\". The genie will receive this message and respond to it.".toList⟩
  else none

/-- Result of `parseToolName`. -/
structure ParsedToolName where
  outputType : OutputType
  customName : Option Str
  deriving DecidableEq, Repr

/-- `isGenieMessageTool` and the genie short-circuit at the top of
`parseToolName`. -/
def isGenieMessageTool (toolName : Str) : Bool :=
  toolName == "send_message_to_genie".toList ||
    ("send_message_to_".toList).isPrefixOf toolName

/-- One iteration of the template loop inside `parseToolName`: exact base
match, else prefix/suffix match with a non-empty spliced middle. -/
def tryTemplate (t : ToolTemplate) (toolName : Str) : Option ParsedToolName :=
  if toolName = t.baseToolName then some ⟨t.outputType, none⟩
  else
    match t.baseToolName.splitOn '_' with
    | p0 :: p1 :: rest =>
      let leadPart := p0 ++ ['_']
      let tailPart := ['_'] ++ List.intercalate ['_'] (p1 :: rest)
      if leadPart.isPrefixOf toolName && tailPart.isSuffixOf toolName then
        let customName := (toolName.take (toolName.length - tailPart.length)).drop leadPart.length
        if customName = [] then none else some ⟨t.outputType, some customName⟩
      else none
    | _ => none

/-- The template loop of `parseToolName`: first matching template wins. -/
def findTemplateMatch (toolName : Str) : List ToolTemplate → Option ParsedToolName
  | [] => none
  | t :: rest =>
    match tryTemplate t toolName with
    | some r => some r
    | none => findTemplateMatch toolName rest

/-- `parseToolName` (lib/tools.ts, lines 823-856). -/
def parseToolName (toolName : Str) : Option ParsedToolName :=
  if isGenieMessageTool toolName then none
  else findTemplateMatch toolName TOOL_TEMPLATES

example : generateToolName "display_icon".toList (some "weather".toList) =
    "display_weather_icon".toList := by decide
example : parseToolName "display_weather_icon".toList =
    some ⟨.icon, some "weather".toList⟩ := by decide
example : parseToolName "send_message_to_alice".toList = none := by decide
example : parseToolName "display_color".toList = some ⟨.color, none⟩ := by decide

/-! ## Tool-name round-trip lemmas -/

lemma head?_append_left {l₁ l₂ : Str} (h : l₁ ≠ []) : (l₁ ++ l₂).head? = l₁.head? := by
  cases l₁ with
  | nil => exact absurd rfl h
  | cons a t => simp

lemma validate_id {s : Str} (h : validToolName s = true) :
    validateAndSanitizeToolName s = s := by
  simp [validateAndSanitizeToolName, h]

lemma validToolName_chars {s : Str} (h : validToolName s = true) :
    ∀ c ∈ s, validChar c = true := by
  simp only [validToolName, Bool.and_eq_true, List.all_eq_true, decide_eq_true_eq] at h
  exact h.2

lemma validToolName_of {s : Str} (h1 : s ≠ []) (h2 : s.length ≤ 128)
    (h3 : ∀ c ∈ s, validChar c = true) : validToolName s = true := by
  simp only [validToolName, Bool.and_eq_true, List.all_eq_true, decide_eq_true_eq]
  exact ⟨⟨List.length_pos.mpr h1, h2⟩, h3⟩

lemma sanitize_ne_nil (x : Str) : sanitizeCustomName x ≠ [] := by
  simp only [sanitizeCustomName]
  by_cases h3 : trimTrail (trimLead (collapseUnderscores (replaceInvalid x))) = []
  · rw [if_pos h3]
    decide
  · rw [if_neg h3]
    intro hc
    have h128 : (128 : Nat) ≠ 0 := by decide
    rcases List.take_eq_nil_iff.mp hc with hc | hc
    · exact h128 hc
    · exact h3 hc

lemma sanitize_all_valid (x : Str) :
    ∀ c ∈ sanitizeCustomName x, validChar c = true := by
  intro c hc
  simp only [sanitizeCustomName] at hc
  have hc' := List.take_subset 128 _ hc
  by_cases h3 : trimTrail (trimLead (collapseUnderscores (replaceInvalid x))) = []
  · rw [if_pos h3] at hc'
    have : ∀ d ∈ "custom".toList, validChar d = true := by decide
    exact this c hc'
  · rw [if_neg h3] at hc'
    exact s3_valid x c hc'

lemma sanitize_len_le (x : Str) : (sanitizeCustomName x).length ≤ 128 := by
  simp only [sanitizeCustomName]
  exact List.length_take_le 128 _

lemma fix_facts {custom : Str} (h : sanitizeCustomName custom = custom) :
    custom ≠ [] ∧ (∀ c ∈ custom, validChar c = true) ∧ custom.length ≤ 128 := by
  refine ⟨?_, ?_, ?_⟩
  · rw [← h]
    exact sanitize_ne_nil custom
  · rw [← h]
    exact sanitize_all_valid custom
  · rw [← h]
    exact sanitize_len_le custom

/-- Shape of `generateToolName` on a base name that splits into at least
two underscore-separated parts and an already-sanitized custom name whose
splice stays within the 128-character bound. -/
lemma generate_with_custom (base p0 p1 : Str) (rest : List Str) (custom : Str)
    (hvb : validToolName base = true)
    (hsp : base.splitOn '_' = p0 :: p1 :: rest)
    (hshape : base = p0 ++ ['_'] ++ List.intercalate ['_'] (p1 :: rest))
    (hfix : sanitizeCustomName custom = custom)
    (hlen : base.length + custom.length + 1 ≤ 128) :
    generateToolName base (some custom) =
      p0 ++ ['_'] ++ custom ++ ['_'] ++ List.intercalate ['_'] (p1 :: rest) := by
  obtain ⟨hne, hval, _⟩ := fix_facts hfix
  have hassembled : validToolName
      (p0 ++ ['_'] ++ custom ++ ['_'] ++ List.intercalate ['_'] (p1 :: rest)) = true := by
    apply validToolName_of
    · simp
    · have hb : base.length =
          p0.length + 1 + (List.intercalate ['_'] (p1 :: rest)).length := by
        rw [hshape]
        simp [List.length_append]
        omega
      simp only [List.length_append, List.length_cons, List.length_nil]
      omega
    · intro c hc
      simp only [List.append_assoc, List.mem_append, List.mem_cons,
        List.not_mem_nil, or_false] at hc
      rcases hc with hc | hc | hc | hc | hc
      · exact validToolName_chars hvb c (by rw [hshape]; simp [hc])
      · rw [hc]
        decide
      · exact hval c hc
      · rw [hc]
        decide
      · exact validToolName_chars hvb c (by rw [hshape]; simp [hc])
  have step1 : generateToolName base (some custom) =
      match (validateAndSanitizeToolName base).splitOn '_' with
      | q0 :: q1 :: qrest =>
        validateAndSanitizeToolName
          (q0 ++ ['_'] ++ sanitizeCustomName custom ++ ['_'] ++
            List.intercalate ['_'] (q1 :: qrest))
      | _ =>
        validateAndSanitizeToolName
          (validateAndSanitizeToolName base ++ ['_'] ++ sanitizeCustomName custom) := by
    simp only [generateToolName]
    rw [if_neg hne]
  rw [step1, validate_id hvb, hsp, hfix]
  exact validate_id hassembled

lemma head_of_prefixCheck {p l : Str} (h : p.isPrefixOf l = true) (hp : p ≠ []) :
    l.head? = p.head? := by
  obtain ⟨t, ht⟩ := List.isPrefixOf_iff_prefix.mp h
  rw [← ht, head?_append_left hp]

lemma getLast_of_suffixCheck {s l : Str} (h : s.isSuffixOf l = true) (hs : s ≠ []) :
    l.getLast? = s.getLast? := by
  obtain ⟨t, ht⟩ := List.isSuffixOf_iff_suffix.mp h
  rw [← ht, List.getLast?_append_of_ne_nil _ hs]

lemma genie_check_false {l : Str} {c : Char} (hh : l.head? = some c) (hc : c ≠ 's') :
    isGenieMessageTool l = false := by
  simp only [isGenieMessageTool, Bool.or_eq_false_iff]
  constructor
  · rw [beq_eq_false_iff_ne]
    intro he
    rw [he] at hh
    simp at hh
    exact hc hh.symm
  · by_cases hp : ("send_message_to_".toList).isPrefixOf l = true
    · have hl := head_of_prefixCheck hp (by decide)
      rw [hh] at hl
      simp at hl
      exact absurd hl hc
    · exact Bool.eq_false_iff.mpr hp

/-- The last character rules a template out: a tool name whose last
character differs from the template base's last character matches neither
the exact-name branch nor the suffix test of `tryTemplate`. -/
lemma tryTemplate_none_core {t : ToolTemplate} {name : Str} {c c' : Char}
    (hn : name.getLast? = some c)
    (hb : t.baseToolName.getLast? = some c')
    (hsufLast : ∀ p0 p1 rest, t.baseToolName.splitOn '_' = p0 :: p1 :: rest →
        (['_'] ++ List.intercalate ['_'] (p1 :: rest)).getLast? = some c')
    (hne : c ≠ c') :
    tryTemplate t name = none := by
  have hneq : name ≠ t.baseToolName := by
    intro he
    rw [he, hb] at hn
    exact hne (by simpa using hn.symm)
  unfold tryTemplate
  rw [if_neg hneq]
  rcases hsp2 : t.baseToolName.splitOn '_' with _ | ⟨p0, _ | ⟨p1, rest⟩⟩
  · rfl
  · rfl
  · have hsuf_false :
        (['_'] ++ List.intercalate ['_'] (p1 :: rest)).isSuffixOf name = false := by
      by_cases hbb : (['_'] ++ List.intercalate ['_'] (p1 :: rest)).isSuffixOf name = true
      · have hlast := getLast_of_suffixCheck hbb (by simp)
        rw [hn, hsufLast p0 p1 rest hsp2] at hlast
        exact absurd (by simpa using hlast) hne
      · exact Bool.eq_false_iff.mpr hbb
    have hns : ¬(['_'] ++ List.intercalate ['_'] (p1 :: rest) <:+ name) := by
      intro hs
      have htrue : (['_'] ++ List.intercalate ['_'] (p1 :: rest)).isSuffixOf name = true :=
        List.isSuffixOf_iff_suffix.mpr hs
      rw [htrue] at hsuf_false
      exact absurd hsuf_false (by decide)
    simp [hsuf_false]
    intro _ hs
    exact absurd hs hns

lemma sufLast_color : ∀ p0 p1 rest,
    colorTemplate.baseToolName.splitOn '_' = p0 :: p1 :: rest →
    (['_'] ++ List.intercalate ['_'] (p1 :: rest)).getLast? = some 'r' := by
  intro p0 p1 rest hsp
  have hconc : ("display".toList : Str) :: ("color".toList : Str) :: ([] : List Str) =
      p0 :: p1 :: rest := by
    rw [← hsp]
    decide
  injection hconc with h0 h1
  injection h1 with h1 h2
  rw [← h1, ← h2]
  decide

lemma sufLast_icon : ∀ p0 p1 rest,
    iconTemplate.baseToolName.splitOn '_' = p0 :: p1 :: rest →
    (['_'] ++ List.intercalate ['_'] (p1 :: rest)).getLast? = some 'n' := by
  intro p0 p1 rest hsp
  have hconc : ("display".toList : Str) :: ("icon".toList : Str) :: ([] : List Str) =
      p0 :: p1 :: rest := by
    rw [← hsp]
    decide
  injection hconc with h0 h1
  injection h1 with h1 h2
  rw [← h1, ← h2]
  decide

lemma sufLast_emoji : ∀ p0 p1 rest,
    emojiTemplate.baseToolName.splitOn '_' = p0 :: p1 :: rest →
    (['_'] ++ List.intercalate ['_'] (p1 :: rest)).getLast? = some 'i' := by
  intro p0 p1 rest hsp
  have hconc : ("display".toList : Str) :: ("emoji".toList : Str) :: ([] : List Str) =
      p0 :: p1 :: rest := by
    rw [← hsp]
    decide
  injection hconc with h0 h1
  injection h1 with h1 h2
  rw [← h1, ← h2]
  decide

lemma sufLast_gauge : ∀ p0 p1 rest,
    gaugeTemplate.baseToolName.splitOn '_' = p0 :: p1 :: rest →
    (['_'] ++ List.intercalate ['_'] (p1 :: rest)).getLast? = some 'e' := by
  intro p0 p1 rest hsp
  have hconc : ("display".toList : Str) :: ("gauge".toList : Str) :: ([] : List Str) =
      p0 :: p1 :: rest := by
    rw [← hsp]
    decide
  injection hconc with h0 h1
  injection h1 with h1 h2
  rw [← h1, ← h2]
  decide

lemma sufLast_pixel : ∀ p0 p1 rest,
    pixelArtTemplate.baseToolName.splitOn '_' = p0 :: p1 :: rest →
    (['_'] ++ List.intercalate ['_'] (p1 :: rest)).getLast? = some 't' := by
  intro p0 p1 rest hsp
  have hconc : ("generate".toList : Str) :: ("pixel".toList : Str) :: (["art".toList] : List Str) =
      p0 :: p1 :: rest := by
    rw [← hsp]
    decide
  injection hconc with h0 h1
  injection h1 with h1 h2
  rw [← h1, ← h2]
  decide

lemma sufLast_webhook : ∀ p0 p1 rest,
    webhookTemplate.baseToolName.splitOn '_' = p0 :: p1 :: rest →
    (['_'] ++ List.intercalate ['_'] (p1 :: rest)).getLast? = some 'k' := by
  intro p0 p1 rest hsp
  have hconc : ("trigger".toList : Str) :: ("webhook".toList : Str) :: ([] : List Str) =
      p0 :: p1 :: rest := by
    rw [← hsp]
    decide
  injection hconc with h0 h1
  injection h1 with h1 h2
  rw [← h1, ← h2]
  decide

lemma sufLast_survey : ∀ p0 p1 rest,
    surveyTemplate.baseToolName.splitOn '_' = p0 :: p1 :: rest →
    (['_'] ++ List.intercalate ['_'] (p1 :: rest)).getLast? = some 'y' := by
  intro p0 p1 rest hsp
  have hconc : ("ask".toList : Str) :: ("survey".toList : Str) :: ([] : List Str) =
      p0 :: p1 :: rest := by
    rw [← hsp]
    decide
  injection hconc with h0 h1
  injection h1 with h1 h2
  rw [← h1, ← h2]
  decide

lemma kill_color {name : Str} {c : Char} (hn : name.getLast? = some c) (hc : c ≠ 'r') :
    tryTemplate colorTemplate name = none :=
  tryTemplate_none_core hn (by decide) sufLast_color hc

lemma kill_icon {name : Str} {c : Char} (hn : name.getLast? = some c) (hc : c ≠ 'n') :
    tryTemplate iconTemplate name = none :=
  tryTemplate_none_core hn (by decide) sufLast_icon hc

lemma kill_emoji {name : Str} {c : Char} (hn : name.getLast? = some c) (hc : c ≠ 'i') :
    tryTemplate emojiTemplate name = none :=
  tryTemplate_none_core hn (by decide) sufLast_emoji hc

lemma kill_gauge {name : Str} {c : Char} (hn : name.getLast? = some c) (hc : c ≠ 'e') :
    tryTemplate gaugeTemplate name = none :=
  tryTemplate_none_core hn (by decide) sufLast_gauge hc

lemma kill_pixel {name : Str} {c : Char} (hn : name.getLast? = some c) (hc : c ≠ 't') :
    tryTemplate pixelArtTemplate name = none :=
  tryTemplate_none_core hn (by decide) sufLast_pixel hc

lemma kill_webhook {name : Str} {c : Char} (hn : name.getLast? = some c) (hc : c ≠ 'k') :
    tryTemplate webhookTemplate name = none :=
  tryTemplate_none_core hn (by decide) sufLast_webhook hc

/-- The spliced tool name matches its own template: the exact-match branch
fails on length, the prefix and suffix tests succeed, and the slice
recovers exactly the spliced middle. -/
lemma tryTemplate_success (t : ToolTemplate) (p0 p1 : Str) (rest : List Str) (custom : Str)
    (hsp : t.baseToolName.splitOn '_' = p0 :: p1 :: rest)
    (hshape : t.baseToolName = p0 ++ ['_'] ++ List.intercalate ['_'] (p1 :: rest))
    (hcustom : custom ≠ []) :
    tryTemplate t (p0 ++ ['_'] ++ custom ++ ['_'] ++ List.intercalate ['_'] (p1 :: rest)) =
      some ⟨t.outputType, some custom⟩ := by
  have hlen_pos : 0 < custom.length := List.length_pos.mpr hcustom
  have hne : p0 ++ ['_'] ++ custom ++ ['_'] ++ List.intercalate ['_'] (p1 :: rest) ≠
      t.baseToolName := by
    intro he
    have hl := congrArg List.length he
    rw [hshape] at hl
    simp only [List.length_append, List.length_cons, List.length_nil] at hl
    omega
  unfold tryTemplate
  rw [if_neg hne, hsp]
  have hpre : (p0 ++ ['_']).isPrefixOf
      (p0 ++ ['_'] ++ custom ++ ['_'] ++ List.intercalate ['_'] (p1 :: rest)) = true := by
    apply List.isPrefixOf_iff_prefix.mpr
    exact ⟨custom ++ ['_'] ++ List.intercalate ['_'] (p1 :: rest), by simp [List.append_assoc]⟩
  have hsuf : (['_'] ++ List.intercalate ['_'] (p1 :: rest)).isSuffixOf
      (p0 ++ ['_'] ++ custom ++ ['_'] ++ List.intercalate ['_'] (p1 :: rest)) = true := by
    apply List.isSuffixOf_iff_suffix.mpr
    exact ⟨p0 ++ ['_'] ++ custom, by simp [List.append_assoc]⟩
  have hcn : ((p0 ++ ['_'] ++ custom ++ ['_'] ++ List.intercalate ['_'] (p1 :: rest)).take
      ((p0 ++ ['_'] ++ custom ++ ['_'] ++ List.intercalate ['_'] (p1 :: rest)).length -
        (['_'] ++ List.intercalate ['_'] (p1 :: rest)).length)).drop (p0 ++ ['_']).length =
      custom := by
    have hlen2 : (p0 ++ ['_'] ++ custom ++ ['_'] ++ List.intercalate ['_'] (p1 :: rest)).length -
        (['_'] ++ List.intercalate ['_'] (p1 :: rest)).length =
        ((p0 ++ ['_']) ++ custom).length := by
      simp only [List.length_append, List.length_cons, List.length_nil]
      omega
    have hrearr : p0 ++ ['_'] ++ custom ++ ['_'] ++ List.intercalate ['_'] (p1 :: rest) =
        ((p0 ++ ['_']) ++ custom) ++ (['_'] ++ List.intercalate ['_'] (p1 :: rest)) := by
      simp [List.append_assoc]
    rw [hlen2, hrearr, List.take_left, List.drop_left]
  simp only [hpre, hsuf, Bool.and_self, if_true, hcn, if_neg hcustom]

lemma findTemplateMatch_skip {name : Str} {t : ToolTemplate} {rest : List ToolTemplate}
    (h : tryTemplate t name = none) :
    findTemplateMatch name (t :: rest) = findTemplateMatch name rest := by
  simp [findTemplateMatch, h]

lemma findTemplateMatch_hit {name : Str} {t : ToolTemplate} {rest : List ToolTemplate}
    {r : ParsedToolName} (h : tryTemplate t name = some r) :
    findTemplateMatch name (t :: rest) = some r := by
  simp [findTemplateMatch, h]

/-- C4 counterexample: the round-trip does not recover a custom name that
sanitization alters. `generateToolName` sanitizes `"weather!"` to
`"weather"` before splicing, so parsing returns `"weather"`, not the
original `"weather!"`. -/
theorem claim_C4_counterexample :
    parseToolName (generateToolName "display_color".toList (some "weather!".toList)) ≠
        some ⟨.color, some "weather!".toList⟩ ∧
      parseToolName (generateToolName "display_color".toList (some "weather!".toList)) =
        some ⟨.color, some "weather".toList⟩ := by decide

/-- C4 (amended): for every known base tool name and every custom name
that sanitization leaves unchanged (equivalently, every already-sanitized
custom name), provided the spliced name stays within the 128-character
tool-name bound, parsing the generated name recovers the originating
output type and the custom name exactly; with no custom name the base
name round-trips to the output type alone. -/
theorem claim_C4_roundtrip (t : ToolTemplate) (ht : t ∈ TOOL_TEMPLATES) (custom : Str)
    (hfix : sanitizeCustomName custom = custom)
    (hlen : t.baseToolName.length + custom.length + 1 ≤ 128) :
    parseToolName (generateToolName t.baseToolName (some custom)) =
        some ⟨t.outputType, some custom⟩ ∧
      parseToolName (generateToolName t.baseToolName none) =
        some ⟨t.outputType, none⟩ := by
  obtain ⟨hcne, _, _⟩ := fix_facts hfix
  fin_cases ht
  · -- color
    have hJ : List.intercalate ['_'] (("color".toList : Str) :: ([] : List Str)) =
        "color".toList := by decide
    have hgen := generate_with_custom colorTemplate.baseToolName "display".toList
      "color".toList [] custom (by decide) (by decide) (by decide) hfix hlen
    rw [hJ] at hgen
    constructor
    · rw [hgen]
      have hassoc : "display".toList ++ ['_'] ++ custom ++ ['_'] ++ "color".toList =
          "display".toList ++ (['_'] ++ (custom ++ (['_'] ++ "color".toList))) := by
        simp [List.append_assoc]
      have hhead : ("display".toList ++ ['_'] ++ custom ++ ['_'] ++ "color".toList).head? =
          some 'd' := by
        rw [hassoc, head?_append_left (by decide)]
        decide
      have hsucc := tryTemplate_success colorTemplate "display".toList "color".toList []
        custom (by decide) (by decide) hcne
      rw [hJ] at hsucc
      simp only [parseToolName, genie_check_false hhead (by decide), Bool.false_eq_true,
        if_false, TOOL_TEMPLATES]
      rw [findTemplateMatch_hit hsucc]
    · decide
  · -- icon
    have hJ : List.intercalate ['_'] (("icon".toList : Str) :: ([] : List Str)) =
        "icon".toList := by decide
    have hgen := generate_with_custom iconTemplate.baseToolName "display".toList
      "icon".toList [] custom (by decide) (by decide) (by decide) hfix hlen
    rw [hJ] at hgen
    constructor
    · rw [hgen]
      have hassoc : "display".toList ++ ['_'] ++ custom ++ ['_'] ++ "icon".toList =
          "display".toList ++ (['_'] ++ (custom ++ (['_'] ++ "icon".toList))) := by
        simp [List.append_assoc]
      have hhead : ("display".toList ++ ['_'] ++ custom ++ ['_'] ++ "icon".toList).head? =
          some 'd' := by
        rw [hassoc, head?_append_left (by decide)]
        decide
      have hlast : ("display".toList ++ ['_'] ++ custom ++ ['_'] ++ "icon".toList).getLast? =
          some 'n' := by
        rw [List.getLast?_append_of_ne_nil _ (by decide)]
        decide
      have hsucc := tryTemplate_success iconTemplate "display".toList "icon".toList []
        custom (by decide) (by decide) hcne
      rw [hJ] at hsucc
      simp only [parseToolName, genie_check_false hhead (by decide), Bool.false_eq_true,
        if_false, TOOL_TEMPLATES]
      rw [findTemplateMatch_skip (kill_color hlast (by decide)),
        findTemplateMatch_hit hsucc]
    · decide
  · -- emoji
    have hJ : List.intercalate ['_'] (("emoji".toList : Str) :: ([] : List Str)) =
        "emoji".toList := by decide
    have hgen := generate_with_custom emojiTemplate.baseToolName "display".toList
      "emoji".toList [] custom (by decide) (by decide) (by decide) hfix hlen
    rw [hJ] at hgen
    constructor
    · rw [hgen]
      have hassoc : "display".toList ++ ['_'] ++ custom ++ ['_'] ++ "emoji".toList =
          "display".toList ++ (['_'] ++ (custom ++ (['_'] ++ "emoji".toList))) := by
        simp [List.append_assoc]
      have hhead : ("display".toList ++ ['_'] ++ custom ++ ['_'] ++ "emoji".toList).head? =
          some 'd' := by
        rw [hassoc, head?_append_left (by decide)]
        decide
      have hlast : ("display".toList ++ ['_'] ++ custom ++ ['_'] ++ "emoji".toList).getLast? =
          some 'i' := by
        rw [List.getLast?_append_of_ne_nil _ (by decide)]
        decide
      have hsucc := tryTemplate_success emojiTemplate "display".toList "emoji".toList []
        custom (by decide) (by decide) hcne
      rw [hJ] at hsucc
      simp only [parseToolName, genie_check_false hhead (by decide), Bool.false_eq_true,
        if_false, TOOL_TEMPLATES]
      rw [findTemplateMatch_skip (kill_color hlast (by decide)),
        findTemplateMatch_skip (kill_icon hlast (by decide)),
        findTemplateMatch_hit hsucc]
    · decide
  · -- gauge
    have hJ : List.intercalate ['_'] (("gauge".toList : Str) :: ([] : List Str)) =
        "gauge".toList := by decide
    have hgen := generate_with_custom gaugeTemplate.baseToolName "display".toList
      "gauge".toList [] custom (by decide) (by decide) (by decide) hfix hlen
    rw [hJ] at hgen
    constructor
    · rw [hgen]
      have hassoc : "display".toList ++ ['_'] ++ custom ++ ['_'] ++ "gauge".toList =
          "display".toList ++ (['_'] ++ (custom ++ (['_'] ++ "gauge".toList))) := by
        simp [List.append_assoc]
      have hhead : ("display".toList ++ ['_'] ++ custom ++ ['_'] ++ "gauge".toList).head? =
          some 'd' := by
        rw [hassoc, head?_append_left (by decide)]
        decide
      have hlast : ("display".toList ++ ['_'] ++ custom ++ ['_'] ++ "gauge".toList).getLast? =
          some 'e' := by
        rw [List.getLast?_append_of_ne_nil _ (by decide)]
        decide
      have hsucc := tryTemplate_success gaugeTemplate "display".toList "gauge".toList []
        custom (by decide) (by decide) hcne
      rw [hJ] at hsucc
      simp only [parseToolName, genie_check_false hhead (by decide), Bool.false_eq_true,
        if_false, TOOL_TEMPLATES]
      rw [findTemplateMatch_skip (kill_color hlast (by decide)),
        findTemplateMatch_skip (kill_icon hlast (by decide)),
        findTemplateMatch_skip (kill_emoji hlast (by decide)),
        findTemplateMatch_hit hsucc]
    · decide
  · -- pixel art
    have hJ : List.intercalate ['_'] (("pixel".toList : Str) :: (["art".toList] : List Str)) =
        "pixel_art".toList := by decide
    have hgen := generate_with_custom pixelArtTemplate.baseToolName "generate".toList
      "pixel".toList ["art".toList] custom (by decide) (by decide) (by decide) hfix hlen
    rw [hJ] at hgen
    constructor
    · rw [hgen]
      have hassoc : "generate".toList ++ ['_'] ++ custom ++ ['_'] ++ "pixel_art".toList =
          "generate".toList ++ (['_'] ++ (custom ++ (['_'] ++ "pixel_art".toList))) := by
        simp [List.append_assoc]
      have hhead : ("generate".toList ++ ['_'] ++ custom ++ ['_'] ++ "pixel_art".toList).head? =
          some 'g' := by
        rw [hassoc, head?_append_left (by decide)]
        decide
      have hlast :
          ("generate".toList ++ ['_'] ++ custom ++ ['_'] ++ "pixel_art".toList).getLast? =
          some 't' := by
        rw [List.getLast?_append_of_ne_nil _ (by decide)]
        decide
      have hsucc := tryTemplate_success pixelArtTemplate "generate".toList "pixel".toList
        ["art".toList] custom (by decide) (by decide) hcne
      rw [hJ] at hsucc
      simp only [parseToolName, genie_check_false hhead (by decide), Bool.false_eq_true,
        if_false, TOOL_TEMPLATES]
      rw [findTemplateMatch_skip (kill_color hlast (by decide)),
        findTemplateMatch_skip (kill_icon hlast (by decide)),
        findTemplateMatch_skip (kill_emoji hlast (by decide)),
        findTemplateMatch_skip (kill_gauge hlast (by decide)),
        findTemplateMatch_hit hsucc]
    · decide
  · -- webhook
    have hJ : List.intercalate ['_'] (("webhook".toList : Str) :: ([] : List Str)) =
        "webhook".toList := by decide
    have hgen := generate_with_custom webhookTemplate.baseToolName "trigger".toList
      "webhook".toList [] custom (by decide) (by decide) (by decide) hfix hlen
    rw [hJ] at hgen
    constructor
    · rw [hgen]
      have hassoc : "trigger".toList ++ ['_'] ++ custom ++ ['_'] ++ "webhook".toList =
          "trigger".toList ++ (['_'] ++ (custom ++ (['_'] ++ "webhook".toList))) := by
        simp [List.append_assoc]
      have hhead : ("trigger".toList ++ ['_'] ++ custom ++ ['_'] ++ "webhook".toList).head? =
          some 't' := by
        rw [hassoc, head?_append_left (by decide)]
        decide
      have hlast :
          ("trigger".toList ++ ['_'] ++ custom ++ ['_'] ++ "webhook".toList).getLast? =
          some 'k' := by
        rw [List.getLast?_append_of_ne_nil _ (by decide)]
        decide
      have hsucc := tryTemplate_success webhookTemplate "trigger".toList "webhook".toList []
        custom (by decide) (by decide) hcne
      rw [hJ] at hsucc
      simp only [parseToolName, genie_check_false hhead (by decide), Bool.false_eq_true,
        if_false, TOOL_TEMPLATES]
      rw [findTemplateMatch_skip (kill_color hlast (by decide)),
        findTemplateMatch_skip (kill_icon hlast (by decide)),
        findTemplateMatch_skip (kill_emoji hlast (by decide)),
        findTemplateMatch_skip (kill_gauge hlast (by decide)),
        findTemplateMatch_skip (kill_pixel hlast (by decide)),
        findTemplateMatch_hit hsucc]
    · decide
  · -- survey
    have hJ : List.intercalate ['_'] (("survey".toList : Str) :: ([] : List Str)) =
        "survey".toList := by decide
    have hgen := generate_with_custom surveyTemplate.baseToolName "ask".toList
      "survey".toList [] custom (by decide) (by decide) (by decide) hfix hlen
    rw [hJ] at hgen
    constructor
    · rw [hgen]
      have hassoc : "ask".toList ++ ['_'] ++ custom ++ ['_'] ++ "survey".toList =
          "ask".toList ++ (['_'] ++ (custom ++ (['_'] ++ "survey".toList))) := by
        simp [List.append_assoc]
      have hhead : ("ask".toList ++ ['_'] ++ custom ++ ['_'] ++ "survey".toList).head? =
          some 'a' := by
        rw [hassoc, head?_append_left (by decide)]
        decide
      have hlast :
          ("ask".toList ++ ['_'] ++ custom ++ ['_'] ++ "survey".toList).getLast? =
          some 'y' := by
        rw [List.getLast?_append_of_ne_nil _ (by decide)]
        decide
      have hsucc := tryTemplate_success surveyTemplate "ask".toList "survey".toList []
        custom (by decide) (by decide) hcne
      rw [hJ] at hsucc
      simp only [parseToolName, genie_check_false hhead (by decide), Bool.false_eq_true,
        if_false, TOOL_TEMPLATES]
      rw [findTemplateMatch_skip (kill_color hlast (by decide)),
        findTemplateMatch_skip (kill_icon hlast (by decide)),
        findTemplateMatch_skip (kill_emoji hlast (by decide)),
        findTemplateMatch_skip (kill_gauge hlast (by decide)),
        findTemplateMatch_skip (kill_pixel hlast (by decide)),
        findTemplateMatch_skip (kill_webhook hlast (by decide)),
        findTemplateMatch_hit hsucc]
    · decide

/-- C4 witness: the amended round-trip theorem applied to the color
template and the concrete sanitized custom name `"weather"`. -/
theorem claim_C4_witness :
    (colorTemplate ∈ TOOL_TEMPLATES ∧
      sanitizeCustomName "weather".toList = "weather".toList ∧
      colorTemplate.baseToolName.length + "weather".toList.length + 1 ≤ 128) ∧
    (parseToolName (generateToolName colorTemplate.baseToolName (some "weather".toList)) =
        some ⟨colorTemplate.outputType, some "weather".toList⟩ ∧
      parseToolName (generateToolName colorTemplate.baseToolName none) =
        some ⟨colorTemplate.outputType, none⟩) :=
  ⟨⟨by decide, by decide, by decide⟩,
    claim_C4_roundtrip colorTemplate (by decide) "weather".toList (by decide) (by decide)⟩

/-! ## Tool resolution scans
(`getToolsFromPrecedingNodes` in lib/tools.ts, `getEnabledTools` in
lib/executor.ts) -/

/-- JS object assignment `m[k] = v` on an association-list model: replace
an existing binding, otherwise append. -/
def insertReplace {α : Type} (m : List (Str × α)) (k : Str) (v : α) : List (Str × α) :=
  if m.any (fun p => p.1 == k) then m.map (fun p => if p.1 == k then (k, v) else p)
  else m ++ [(k, v)]

/-- Result record of `getToolsFromPrecedingNodes`. -/
structure ToolsResult where
  tools : List Tool
  nodeIdByToolName : List (Str × Str)
  deriving DecidableEq, Repr

/-- The node sequence the backward loop of `getToolsFromPrecedingNodes`
visits: indices `currentNodeIndex - 1` down to `0`, stopping exclusively
at the first inference node encountered. (The `none` arm is unreachable
for indices within the pipeline.) -/
def precedingScan (nodes : List PipelineNodeConfig) : Nat → List PipelineNodeConfig
  | 0 => []
  | i + 1 =>
    match nodes[i]? with
    | none => precedingScan nodes i
    | some n => if n.type = .inference then [] else n :: precedingScan nodes i

/-- Loop body of `getToolsFromPrecedingNodes`: collect the output tool and
the genie tool of one node, recording ownership in the name map. -/
def collectStep (acc : ToolsResult) (node : PipelineNodeConfig) : ToolsResult :=
  let acc1 :=
    match getToolForNode node with
    | some tool => ToolsResult.mk (acc.tools ++ [tool])
        (insertReplace acc.nodeIdByToolName tool.name node.id)
    | none => acc
  match getGenieTool node with
  | some gtool => ToolsResult.mk (acc1.tools ++ [gtool])
      (insertReplace acc1.nodeIdByToolName gtool.name node.id)
  | none => acc1

/-- `getToolsFromPrecedingNodes` (lib/tools.ts lines 863-893). -/
def getToolsFromPrecedingNodes (nodes : List PipelineNodeConfig)
    (currentNodeIndex : Nat) : ToolsResult :=
  (precedingScan nodes currentNodeIndex).foldl collectStep ⟨[], []⟩

/-- `isOutputNode` (lib/tools.ts). -/
def isOutputNode (t : NodeType) : Bool := (NODE_TYPE_TO_OUTPUT_TYPE t).isSome

/-- Loop body of `getEnabledTools`. -/
def enabledStep (acc : List Tool) (node : PipelineNodeConfig) : List Tool :=
  if isOutputNode node.type then
    match getToolForNode node with
    | some tool => acc ++ [tool]
    | none => acc
  else acc

/-- `getEnabledTools` (lib/executor.ts lines 234-255): scans FORWARD from
`currentNodeIndex + 1` to the end of the pipeline, stopping at the next
inference node. -/
def getEnabledTools (nodes : List PipelineNodeConfig) (currentNodeIndex : Nat) : List Tool :=
  ((nodes.drop (currentNodeIndex + 1)).takeWhile
    (fun n => !(n.type == .inference))).foldl enabledStep []

/-- Specification-side: the index of the nearest inference node strictly
before `idx`. -/
def nearestPrecedingInference (nodes : List PipelineNodeConfig) (idx : Nat) : Option Nat :=
  ((List.range idx).filter
    (fun j => (nodes[j]?).elim false (fun n => n.type == .inference))).getLast?

/-- Specification-side: first index of the inference segment ending at
`idx` (one past the nearest preceding inference node, or pipeline start). -/
def segStart (nodes : List PipelineNodeConfig) (idx : Nat) : Nat :=
  match nearestPrecedingInference nodes idx with
  | some k => k + 1
  | none => 0

lemma mem_of_getLast?_eq {α : Type} {l : List α} {a : α} (h : l.getLast? = some a) :
    a ∈ l := by
  cases l with
  | nil => simp at h
  | cons x t =>
    rw [List.getLast?_eq_getLast _ (by simp)] at h
    exact (Option.some_inj.mp h) ▸ List.getLast_mem _

lemma mem_precedingScan {nodes : List PipelineNodeConfig} {idx : Nat}
    {n : PipelineNodeConfig} (h : n ∈ precedingScan nodes idx) :
    ∃ j, j < idx ∧ nodes[j]? = some n ∧ n.type ≠ .inference ∧
      ∀ k m, j < k → k < idx → nodes[k]? = some m → m.type ≠ .inference := by
  induction idx with
  | zero => simp [precedingScan] at h
  | succ i ih =>
    simp only [precedingScan] at h
    cases hni : nodes[i]? with
    | none =>
      rw [hni] at h
      obtain ⟨j, hj, hjn, hjt, hbet⟩ := ih h
      refine ⟨j, by omega, hjn, hjt, fun k m hk1 hk2 hkm => ?_⟩
      by_cases hk : k < i
      · exact hbet k m hk1 hk hkm
      · have hke : k = i := by omega
        rw [hke, hni] at hkm
        exact absurd hkm (by simp)
    | some nd =>
      rw [hni] at h
      dsimp only at h
      by_cases ht : nd.type = .inference
      · rw [if_pos ht] at h
        simp at h
      · rw [if_neg ht] at h
        rcases List.mem_cons.mp h with rfl | h
        · refine ⟨i, by omega, hni, ht, fun k m hk1 hk2 _ => ?_⟩
          exact absurd hk1 (by omega)
        · obtain ⟨j, hj, hjn, hjt, hbet⟩ := ih h
          refine ⟨j, by omega, hjn, hjt, fun k m hk1 hk2 hkm => ?_⟩
          by_cases hk : k < i
          · exact hbet k m hk1 hk hkm
          · have hke : k = i := by omega
            rw [hke, hni] at hkm
            have hm : nd = m := Option.some_inj.mp hkm
            rw [← hm]
            exact ht

lemma nearestPrecedingInference_spec {nodes : List PipelineNodeConfig} {idx t : Nat}
    (h : nearestPrecedingInference nodes idx = some t) :
    t < idx ∧ ∃ m, nodes[t]? = some m ∧ m.type = .inference := by
  unfold nearestPrecedingInference at h
  have hmem := mem_of_getLast?_eq h
  simp only [List.mem_filter, List.mem_range] at hmem
  obtain ⟨hlt, hpred⟩ := hmem
  refine ⟨hlt, ?_⟩
  cases hnt : nodes[t]? with
  | none =>
    rw [hnt] at hpred
    simp at hpred
  | some m =>
    rw [hnt] at hpred
    simp only [Option.elim] at hpred
    exact ⟨m, rfl, by simpa using hpred⟩

lemma segStart_le {nodes : List PipelineNodeConfig} {idx j : Nat} {n : PipelineNodeConfig}
    (hjn : nodes[j]? = some n) (hjt : n.type ≠ .inference) (_hj : j < idx)
    (hbet : ∀ k m, j < k → k < idx → nodes[k]? = some m → m.type ≠ .inference) :
    segStart nodes idx ≤ j := by
  unfold segStart
  cases hnp : nearestPrecedingInference nodes idx with
  | none => exact Nat.zero_le j
  | some t =>
    obtain ⟨ht, m, htm, htt⟩ := nearestPrecedingInference_spec hnp
    by_cases hc : t + 1 ≤ j
    · exact hc
    · exfalso
      by_cases hjt2 : j = t
      · rw [hjt2, htm] at hjn
        exact hjt ((Option.some_inj.mp hjn) ▸ htt)
      · exact (hbet t m (by omega) ht htm) htt

lemma collectStep_tools (acc : ToolsResult) (node : PipelineNodeConfig) :
    ∀ tool ∈ (collectStep acc node).tools,
      tool ∈ acc.tools ∨ getToolForNode node = some tool ∨ getGenieTool node = some tool := by
  intro tool htool
  cases h1 : getToolForNode node with
  | none =>
    cases h2 : getGenieTool node with
    | none =>
      simp only [collectStep, h1, h2] at htool
      exact Or.inl htool
    | some g =>
      simp only [collectStep, h1, h2, List.mem_append, List.mem_singleton] at htool
      rcases htool with h | h
      · exact Or.inl h
      · subst h
        exact Or.inr (Or.inr rfl)
  | some t =>
    cases h2 : getGenieTool node with
    | none =>
      simp only [collectStep, h1, h2, List.mem_append, List.mem_singleton] at htool
      rcases htool with h | h
      · exact Or.inl h
      · subst h
        exact Or.inr (Or.inl rfl)
    | some g =>
      simp only [collectStep, h1, h2, List.mem_append, List.mem_singleton] at htool
      rcases htool with (h | h) | h
      · exact Or.inl h
      · subst h
        exact Or.inr (Or.inl rfl)
      · subst h
        exact Or.inr (Or.inr rfl)

lemma mem_foldl_tools :
    ∀ (scan : List PipelineNodeConfig) (acc : ToolsResult) (tool : Tool),
      tool ∈ (scan.foldl collectStep acc).tools →
      tool ∈ acc.tools ∨
        ∃ n ∈ scan, getToolForNode n = some tool ∨ getGenieTool n = some tool := by
  intro scan
  induction scan with
  | nil => exact fun acc tool h => Or.inl h
  | cons nd rest ih =>
    intro acc tool h
    rcases ih (collectStep acc nd) tool h with h' | ⟨n, hn, hcase⟩
    · rcases collectStep_tools acc nd tool h' with h'' | h''
      · exact Or.inl h''
      · exact Or.inr ⟨nd, by simp, h''⟩
    · exact Or.inr ⟨n, by simp [hn], hcase⟩

lemma mem_foldl_enabled :
    ∀ (scan : List PipelineNodeConfig) (acc : List Tool) (tool : Tool),
      tool ∈ scan.foldl enabledStep acc →
      tool ∈ acc ∨ ∃ n ∈ scan, getToolForNode n = some tool := by
  intro scan
  induction scan with
  | nil => exact fun acc tool h => Or.inl h
  | cons nd rest ih =>
    intro acc tool h
    rcases ih (enabledStep acc nd) tool h with h' | ⟨n, hn, hcase⟩
    · by_cases ho : isOutputNode nd.type = true
      · cases h1 : getToolForNode nd with
        | none =>
          simp only [enabledStep, ho, h1, if_true] at h'
          exact Or.inl h'
        | some t =>
          simp only [enabledStep, ho, h1, if_true, List.mem_append,
            List.mem_singleton] at h'
          rcases h' with h' | h'
          · exact Or.inl h'
          · exact Or.inr ⟨nd, by simp, by rw [h1, h']⟩
      · simp only [enabledStep, ho] at h'
        simp only [Bool.false_eq_true, if_false] at h'
        exact Or.inl h'
    · exact Or.inr ⟨n, by simp [hn], hcase⟩

lemma mem_takeWhile_idx {α : Type} (p : α → Bool) :
    ∀ (l : List α) (a : α), a ∈ l.takeWhile p →
      ∃ i : Nat, l[i]? = some a ∧ p a = true ∧
        ∀ (k : Nat) (b : α), k < i → l[k]? = some b → p b = true := by
  intro l
  induction l with
  | nil =>
    intro a h
    simp [List.takeWhile] at h
  | cons x xs ih =>
    intro a h
    cases hp : p x with
    | false =>
      rw [List.takeWhile_cons, hp] at h
      simp at h
    | true =>
      rw [List.takeWhile_cons, hp] at h
      simp only [if_true] at h
      rcases List.mem_cons.mp h with rfl | h
      · exact ⟨0, by simp, hp, fun k b hk => by omega⟩
      · obtain ⟨i, hia, hpa, hbef⟩ := ih a h
        refine ⟨i + 1, by simpa using hia, hpa, fun k b hk hkb => ?_⟩
        cases k with
        | zero =>
          simp at hkb
          rw [← hkb]
          exact hp
        | succ k' => exact hbef k' b (by omega) (by simpa using hkb)

/-- The two-node pipeline `[inference, color_display]` on which the forward
resolver of the executor returns a tool although the segment strictly
between the (absent) preceding inference node and the target is empty. -/
def demoNodesC1 : List PipelineNodeConfig :=
  [⟨"inf-1".toList, .inference, none, [], false⟩,
   ⟨"color-1".toList, .color_display, none, [], false⟩]

/-- C1 counterexample: `getEnabledTools` — the tool resolution used by the
executor — violates the claim. At pipeline `[inference, color_display]`
and inference index `0`, it returns the color tool although no node index
lies strictly between the segment start and the target node. -/
theorem claim_C1_counterexample :
    ∃ tool ∈ getEnabledTools demoNodesC1 0,
      ¬ ∃ j n, segStart demoNodesC1 0 ≤ j ∧ j < 0 ∧ demoNodesC1[j]? = some n ∧
        (getToolForNode n = some tool ∨ getGenieTool n = some tool) := by
  refine ⟨⟨"display_color".toList, "Display a color to the user.".toList⟩, by decide, ?_⟩
  rintro ⟨j, n, _, hj, _⟩
  omega

/-- C1 (amended): the backward resolver `getToolsFromPrecedingNodes` (the
one used by the pipeline builder) satisfies the segment boundary property:
every returned tool is generated from a non-inference node lying strictly
between the nearest preceding inference node and the target index. The
executor's `getEnabledTools`, by contrast, scans forward: every tool it
returns is generated from a non-inference node strictly AFTER the target
index and before the next inference node. -/
theorem claim_C1_segment_boundary (nodes : List PipelineNodeConfig) (idx : Nat) :
    (∀ tool ∈ (getToolsFromPrecedingNodes nodes idx).tools,
      ∃ j n, segStart nodes idx ≤ j ∧ j < idx ∧ nodes[j]? = some n ∧
        n.type ≠ .inference ∧
        (getToolForNode n = some tool ∨ getGenieTool n = some tool)) ∧
    (∀ tool ∈ getEnabledTools nodes idx,
      ∃ j n, idx < j ∧ nodes[j]? = some n ∧ n.type ≠ .inference ∧
        getToolForNode n = some tool ∧
        ∀ k m, idx < k → k < j → nodes[k]? = some m → m.type ≠ .inference) := by
  constructor
  · intro tool htool
    rcases mem_foldl_tools _ _ tool htool with h | ⟨n, hn, hcase⟩
    · simp at h
    · obtain ⟨j, hj, hjn, hjt, hbet⟩ := mem_precedingScan hn
      exact ⟨j, n, segStart_le hjn hjt hj hbet, hj, hjn, hjt, hcase⟩
  · intro tool htool
    rcases mem_foldl_enabled _ _ tool htool with h | ⟨n, hn, htooln⟩
    · simp at h
    · obtain ⟨i, hia, hpa, hbef⟩ := mem_takeWhile_idx _ _ _ hn
      rw [List.getElem?_drop] at hia
      refine ⟨idx + 1 + i, n, by omega, hia, by simpa using hpa, htooln, ?_⟩
      intro k m hk1 hk2 hkm
      have hk' : k - (idx + 1) < i := by omega
      have hkd : (nodes.drop (idx + 1))[k - (idx + 1)]? = some m := by
        rw [List.getElem?_drop]
        have hke : idx + 1 + (k - (idx + 1)) = k := by omega
        rw [hke]
        exact hkm
      have := hbef (k - (idx + 1)) m hk' hkd
      simpa using this

/-- The two-node pipeline `[color_display, inference]` used to
instantiate the segment-boundary theorem. -/
def demoNodesC1b : List PipelineNodeConfig :=
  [⟨"color-2".toList, .color_display, none, [], false⟩,
   ⟨"inf-2".toList, .inference, none, [], false⟩]

/-- C1 witness: the segment-boundary theorem applied at the concrete
pipeline `[color_display, inference]` and its color tool. -/
theorem claim_C1_witness :
    ∃ j n, segStart demoNodesC1b 1 ≤ j ∧ j < 1 ∧ demoNodesC1b[j]? = some n ∧
      n.type ≠ .inference ∧
      (getToolForNode n =
          some ⟨"display_color".toList, "Display a color to the user.".toList⟩ ∨
        getGenieTool n =
          some ⟨"display_color".toList, "Display a color to the user.".toList⟩) :=
  (claim_C1_segment_boundary demoNodesC1b 1).1
    ⟨"display_color".toList, "Display a color to the user.".toList⟩ (by decide)

/-! ## Context accumulation and the inference message list
(lib/executor.ts `processSystemPrompt`, `processUserInput`,
`processInference`, `callLLM`) -/

inductive Role
  | system | user | assistant
  deriving DecidableEq, Repr

/-- A `PipelineMessage` (types/pipeline.ts): role and content. The
optional `toolCalls` payload carried on assistant messages is read by no
embedded function and is omitted. -/
structure PipelineMessage where
  role : Role
  content : Str
  deriving DecidableEq, Repr

/-- `contextMode` of an inference node; any value other than `"fresh"`
(including an absent one) takes the `continue` branch. -/
inductive ContextMode
  | fresh | continueMode
  deriving DecidableEq, Repr

/-- Lines 137-147 of `processInference`: `"fresh"` keeps only the most
recent user message of the accumulated context (scan of the reversed
list); `"continue"` keeps the full history. -/
def buildBaseMessages (mode : ContextMode) (ctxMessages : List PipelineMessage) :
    List PipelineMessage :=
  match mode with
  | .fresh =>
    match ctxMessages.reverse.find? (fun m => m.role == .user) with
    | some m => [m]
    | none => []
  | .continueMode => ctxMessages

/-- The mutation at lines 151-157: append the override text to the first
system message. -/
def replaceFirstSystem (sp : Str) : List PipelineMessage → List PipelineMessage
  | [] => []
  | m :: rest =>
    if m.role == .system then
      PipelineMessage.mk m.role (m.content ++ "\n\n".toList ++ sp) :: rest
    else m :: replaceFirstSystem sp rest

/-- Lines 149-162 of `processInference`: an optional per-call system
prompt is appended to the existing system message, or unshifted as a new
one; the JS guard `if (config.systemPrompt)` treats the empty string as
absent. -/
def addSystemOverride (systemPrompt : Option Str) (messages : List PipelineMessage) :
    List PipelineMessage :=
  match systemPrompt with
  | none => messages
  | some sp =>
    if sp = [] then messages
    else if messages.any (fun m => m.role == .system) then replaceFirstSystem sp messages
    else ⟨.system, sp⟩ :: messages

/-- The full message list `processInference` hands to `callLLM`. -/
def buildInferenceMessages (mode : ContextMode) (systemPrompt : Option Str)
    (ctxMessages : List PipelineMessage) : List PipelineMessage :=
  addSystemOverride systemPrompt (buildBaseMessages mode ctxMessages)

/-- `callLLM` (lines 208-214): the system message is split into the
`system` request field; the message array sent to the model is the
non-system messages in order. -/
def apiMessages (messages : List PipelineMessage) : List PipelineMessage :=
  messages.filter (fun m => !(m.role == .system))

/-- Specification-side: the most recent user message of a context. -/
def mostRecentUser (ctxMessages : List PipelineMessage) : Option PipelineMessage :=
  (ctxMessages.filter (fun m => m.role == .user)).getLast?

lemma reverse_find?_eq_filter_getLast {α : Type} (p : α → Bool) (l : List α) :
    l.reverse.find? p = (l.filter p).getLast? := by
  induction l with
  | nil => rfl
  | cons a t ih =>
    rw [List.reverse_cons, List.find?_append, ih, List.filter_cons]
    cases hp : p a with
    | false =>
      simp only [List.find?]
      rw [hp]
      simp only [Bool.false_eq_true, if_false]
      cases hf : (t.filter p).getLast? <;> rfl
    | true =>
      simp only [List.find?]
      rw [hp]
      simp only [if_true]
      cases hf : t.filter p with
      | nil => simp [hf]
      | cons x xs =>
        rw [List.getLast?_cons_cons, ← hf]
        rw [List.getLast?_eq_getLast _ (by simp [hf])]
        rfl

/-- C5: with `contextMode` `"fresh"` the message list built for the model
call is exactly the most recent user message of the accumulated context
(or empty when none exists); with `"continue"` it is the full accumulated
list; and independently of any system-prompt override, the non-system
message array sent to the API in fresh mode is exactly that single user
message (or empty). -/
theorem claim_C5_fresh_collapses_history (ctxMessages : List PipelineMessage) :
    (buildBaseMessages .fresh ctxMessages =
      match mostRecentUser ctxMessages with
      | some m => [m]
      | none => []) ∧
    (buildBaseMessages .continueMode ctxMessages = ctxMessages) ∧
    (∀ sp, apiMessages (buildInferenceMessages .fresh sp ctxMessages) =
      match mostRecentUser ctxMessages with
      | some m => [m]
      | none => []) := by
  have hbase : buildBaseMessages .fresh ctxMessages =
      match mostRecentUser ctxMessages with
      | some m => [m]
      | none => [] := by
    unfold buildBaseMessages mostRecentUser
    rw [reverse_find?_eq_filter_getLast]
  refine ⟨hbase, rfl, ?_⟩
  intro sp
  unfold buildInferenceMessages
  rw [hbase]
  cases hg : mostRecentUser ctxMessages with
  | none =>
    cases sp with
    | none => rfl
    | some s =>
      by_cases hs : s = []
      · simp [addSystemOverride, hs, apiMessages]
      · simp [addSystemOverride, hs, apiMessages]
  | some m =>
    have hmem : m ∈ ctxMessages.filter (fun x => x.role == .user) :=
      mem_of_getLast?_eq hg
    have hrole : (m.role == Role.user) = true := (List.mem_filter.mp hmem).2
    have hnotsys : (m.role == Role.system) = false := by
      cases hm : m.role
      · rw [hm] at hrole
        simp at hrole
      · rfl
      · rfl
    cases sp with
    | none => simp [addSystemOverride, apiMessages, hnotsys]
    | some s =>
      by_cases hs : s = []
      · simp [addSystemOverride, hs, apiMessages, hnotsys]
      · simp [addSystemOverride, hs, apiMessages, hnotsys]

/-! ## The at-most-one-system-message invariant (lib/executor.ts) -/

/-- The effect of one `processNode` dispatch on `context.messages`:
a system-prompt node replaces any existing system message
(`processSystemPrompt`), a user-input node appends its non-empty resolved
content (`processUserInput`), an inference node appends one assistant
message (`processInference`), and display nodes leave the context
untouched. -/
inductive ExecStep
  | systemPromptNode (prompt : Str)
  | userInputNode (content : Str)
  | inferenceNode (assistantText : Str)
  | displayNode

def applyStep (messages : List PipelineMessage) : ExecStep → List PipelineMessage
  | .systemPromptNode p =>
    ⟨.system, p⟩ :: messages.filter (fun m => !(m.role == .system))
  | .userInputNode content =>
    if content = [] then messages else messages ++ [⟨.user, content⟩]
  | .inferenceNode text => messages ++ [⟨.assistant, text⟩]
  | .displayNode => messages

/-- `executePipeline`: fold the node processors over the initially empty
message list. -/
def runPipelineMessages (steps : List ExecStep) : List PipelineMessage :=
  steps.foldl applyStep []

/-- Number of system-role messages in a context. -/
def countSystem (messages : List PipelineMessage) : Nat :=
  (messages.filter (fun m => m.role == .system)).length

lemma countSystem_append (l₁ l₂ : List PipelineMessage) :
    countSystem (l₁ ++ l₂) = countSystem l₁ + countSystem l₂ := by
  unfold countSystem
  rw [List.filter_append, List.length_append]

lemma countSystem_filter_out (messages : List PipelineMessage) :
    countSystem (messages.filter (fun m => !(m.role == .system))) = 0 := by
  unfold countSystem
  induction messages with
  | nil => rfl
  | cons m rest ih =>
    rw [List.filter_cons]
    cases hm : (m.role == Role.system) with
    | false =>
      simp only [hm, Bool.not_false, if_true, List.filter_cons, Bool.false_eq_true,
        if_false]
      exact ih
    | true =>
      simp only [hm, Bool.not_true, List.filter_cons, Bool.false_eq_true, if_false]
      exact ih

lemma countSystem_applyStep_le {messages : List PipelineMessage}
    (h : countSystem messages ≤ 1) (s : ExecStep) :
    countSystem (applyStep messages s) ≤ 1 := by
  cases s with
  | systemPromptNode p =>
    show countSystem (⟨.system, p⟩ :: messages.filter (fun m => !(m.role == .system))) ≤ 1
    unfold countSystem
    rw [List.filter_cons]
    simp only [show ((PipelineMessage.mk Role.system p).role == Role.system) = true from rfl,
      if_true, List.length_cons]
    have := countSystem_filter_out messages
    unfold countSystem at this
    omega
  | userInputNode content =>
    show countSystem (if content = [] then messages
      else messages ++ [⟨.user, content⟩]) ≤ 1
    by_cases hc : content = []
    · rwa [if_pos hc]
    · rw [if_neg hc, countSystem_append]
      have : countSystem [PipelineMessage.mk Role.user content] = 0 := rfl
      omega
  | inferenceNode text =>
    show countSystem (messages ++ [⟨.assistant, text⟩]) ≤ 1
    rw [countSystem_append]
    have : countSystem [PipelineMessage.mk Role.assistant text] = 0 := rfl
    omega
  | displayNode => exact h

lemma countSystem_foldl_le :
    ∀ (steps : List ExecStep) (acc : List PipelineMessage),
      countSystem acc ≤ 1 → countSystem (steps.foldl applyStep acc) ≤ 1 := by
  intro steps
  induction steps with
  | nil => exact fun acc h => h
  | cons s rest ih => exact fun acc h => ih _ (countSystem_applyStep_le h s)

/-- C8: starting from the empty context, the accumulated message list
holds at most one system message after any sequence of node-processing
steps, and processing a system-prompt node always yields exactly one
system message — the new one, at the head — replacing any previous one. -/
theorem claim_C8_single_system_message (steps : List ExecStep) :
    countSystem (runPipelineMessages steps) ≤ 1 ∧
    (∀ (messages : List PipelineMessage) (p : Str),
      countSystem (applyStep messages (.systemPromptNode p)) = 1 ∧
      (applyStep messages (.systemPromptNode p)).head? = some ⟨.system, p⟩) := by
  constructor
  · exact countSystem_foldl_le steps [] (by decide)
  · intro messages p
    constructor
    · show countSystem (⟨.system, p⟩ :: messages.filter (fun m => !(m.role == .system))) = 1
      unfold countSystem
      rw [List.filter_cons]
      simp only [show ((PipelineMessage.mk Role.system p).role == Role.system) = true from rfl,
        if_true, List.length_cons]
      have := countSystem_filter_out messages
      unfold countSystem at this
      omega
    · rfl

/-! ## Tool-call payloads and the per-kind output parsers
(lib/nodeInterface.ts, ColorDisplayNodeEditor.tsx,
PixelArtDisplayNodeEditor.tsx, services/inference/toolRouter.ts) -/

/-- A JavaScript value as it appears in a tool-call `input` payload.
Numbers are carried opaquely (no parser embedded here computes with
them), so an integer payload suffices. -/
inductive JsonVal
  | null
  | bool (b : Bool)
  | num (n : Int)
  | str (s : Str)
  | arr (elems : List JsonVal)
  | obj (fields : List (Str × JsonVal))
  deriving BEq, Repr

/-- JS truthiness of a payload value: `null`, `false`, `0` and `""` are
falsy; every object and array is truthy. -/
def jsTruthy : JsonVal → Bool
  | .null => false
  | .bool b => b
  | .num n => !(n == 0)
  | .str s => !(s.isEmpty)
  | .arr _ => true
  | .obj _ => true

/-- Property access `input.key`; `none` models JS `undefined`. -/
def jsGet (v : JsonVal) (key : Str) : Option JsonVal :=
  match v with
  | .obj fields => (fields.find? (fun p => p.1 == key)).map (fun p => p.2)
  | _ => none

/-- A raw tool call of an inference response (lib/nodeInterface.ts
`ToolCall`). -/
structure RawToolCall where
  toolName : Str
  toolId : Str
  input : JsonVal

/-- `InferenceResponse` (lib/nodeInterface.ts): reply text, tool calls,
optional error. -/
structure InferenceResponse where
  response : Str
  toolCalls : List RawToolCall
  error : Option Str

/-- `ColorOutput` as the color parser builds it: every field is copied
out of the payload verbatim (`input.hex as string` is an unchecked
cast); `none` models an absent field. -/
structure ColorOutput where
  hex : Option JsonVal
  name : Option JsonVal
  explanation : Option JsonVal

/-- The tool-call name test of the color parser: names starting with
`display_` and ending in `_color`, or exactly `display_color`. -/
def isColorToolCallName (name : Str) : Bool :=
  (("display_".toList).isPrefixOf name && ("_color".toList).isSuffixOf name) ||
    name == "display_color".toList

/-- `ColorDisplayNodeInterface.parse` (ColorDisplayNodeEditor.tsx lines
38-55): find the first color tool call; for a truthy input copy `hex`,
`name` and `explanation` out of the payload. No pattern check is applied
to `hex`. -/
def colorParse (response : InferenceResponse) : Option ColorOutput :=
  match response.toolCalls.find? (fun tc => isColorToolCallName tc.toolName) with
  | some tc =>
    if jsTruthy tc.input then
      some ⟨jsGet tc.input "hex".toList, jsGet tc.input "name".toList,
        jsGet tc.input "explanation".toList⟩
    else none
  | none => none

/-- `PixelArtOutput` as the pixel-art parser builds it. -/
structure PixelArtOutput where
  colors : JsonVal
  grid : List JsonVal
  width : Nat
  height : Nat
  explanation : Option JsonVal

/-- The tool-call name test of the pixel-art parser. -/
def isPixelArtToolCallName (name : Str) : Bool :=
  (("generate_".toList).isPrefixOf name && ("_pixel_art".toList).isSuffixOf name) ||
    name == "generate_pixel_art".toList

/-- JS `.length` of a grid row combined with the `|| 0` fallback of
`grid[0]?.length || 0`: string and array lengths, `0` for anything
without a `length` property. -/
def jsRowLength : JsonVal → Nat
  | .str s => s.length
  | .arr l => l.length
  | _ => 0

/-- `PixelArtDisplayNodeInterface.parse` (PixelArtDisplayNodeEditor.tsx
lines 55-83): find the first pixel-art tool call; require a truthy input,
a truthy `colors` value and a `grid` that is a non-empty array; infer
`width` from the first row and `height` from the row count. No
equal-row-length, dimension-range or palette-size check is performed. -/
def pixelArtParse (response : InferenceResponse) : Option PixelArtOutput :=
  match response.toolCalls.find? (fun tc => isPixelArtToolCallName tc.toolName) with
  | some tc =>
    if jsTruthy tc.input then
      match jsGet tc.input "colors".toList, jsGet tc.input "grid".toList with
      | some colorsVal, some gridVal =>
        if jsTruthy colorsVal then
          match gridVal with
          | .arr rows =>
            if rows.length > 0 then
              some ⟨colorsVal, rows, (rows.head?.map jsRowLength).getD 0, rows.length,
                jsGet tc.input "explanation".toList⟩
            else none
          | _ => none
        else none
      | _, _ => none
    else none
  | none => none

/-- The union of parsed outputs the routed claims exercise. -/
inductive OutputData
  | colorOut (c : ColorOutput)
  | pixelArtOut (p : PixelArtOutput)

/-- Modelled from the spec: `parseBlockOutput` (lib/blockParsers.ts is
not part of the repository snapshot; only its callers are) — per §4.5 the
router must "delegate to that node kind's parser to both match the call
and validate/shape its payload". This dispatch maps the two node kinds
the claims exercise to their in-repo `NodeInterface.parse`
implementations embedded above; other kinds produce no output here. -/
def parseBlockOutputModel (t : NodeType) (response : InferenceResponse)
    (_blockId : Str) : Option OutputData :=
  match t with
  | .color_display => (colorParse response).map OutputData.colorOut
  | .pixel_art_display => (pixelArtParse response).map OutputData.pixelArtOut
  | _ => none

/-- Loop body of `routeToolCalls`. -/
def routeStep (nodeIdByToolName : List (Str × Str)) (nodes : List PipelineNodeConfig)
    (inferenceResponse : InferenceResponse)
    (parseBlock : NodeType → InferenceResponse → Str → Option OutputData)
    (outputs : List (Str × OutputData)) (toolCall : RawToolCall) :
    List (Str × OutputData) :=
  match List.lookup toolCall.toolName nodeIdByToolName with
  | none => outputs
  | some targetNodeId =>
    if targetNodeId = [] then outputs
    else
      match nodes.find? (fun n => n.id == targetNodeId) with
      | none => outputs
      | some targetNode =>
        match parseBlock targetNode.type inferenceResponse targetNodeId with
        | some parsed => insertReplace outputs targetNodeId parsed
        | none => outputs

/-- `routeToolCalls` (services/inference/toolRouter.ts lines 19-44): for
each raw tool call, resolve the owning node id (a falsy id skips the
call), find the owning node (a missing node skips the call), parse, and
store a successful parse under the node id. -/
def routeToolCalls (toolCalls : List RawToolCall)
    (nodeIdByToolName : List (Str × Str)) (nodes : List PipelineNodeConfig)
    (inferenceResponse : InferenceResponse)
    (parseBlock : NodeType → InferenceResponse → Str → Option OutputData) :
    List (Str × OutputData) :=
  toolCalls.foldl (routeStep nodeIdByToolName nodes inferenceResponse parseBlock) []

/-- Specification-side: a call the router can route — its tool name is
owned and the owner exists in the pipeline. -/
def validCall (nodeIdByToolName : List (Str × Str)) (nodes : List PipelineNodeConfig)
    (toolCall : RawToolCall) : Bool :=
  match List.lookup toolCall.toolName nodeIdByToolName with
  | some tid => !(tid == []) && nodes.any (fun n => n.id == tid)
  | none => false

lemma lookup_map_replace {α : Type} (k tid : Str) (v : α) (hne : (tid == k) = false) :
    ∀ m : List (Str × α),
      List.lookup tid (m.map (fun p => if p.1 == k then (k, v) else p)) =
        List.lookup tid m := by
  intro m
  induction m with
  | nil => rfl
  | cons p rest ih =>
    obtain ⟨a, b⟩ := p
    by_cases hak : (a == k) = true
    · have hak' : a = k := eq_of_beq hak
      simp only [List.map_cons, hak, if_true]
      rw [List.lookup, List.lookup, hne]
      have hta : (tid == a) = false := by rw [hak']; exact hne
      rw [hta]
      exact ih
    · have hak' : (a == k) = false := by simpa using hak
      simp only [List.map_cons, hak', Bool.false_eq_true, if_false]
      rw [List.lookup, List.lookup]
      cases hta : (tid == a) with
      | true => rfl
      | false => exact ih

lemma lookup_map_replace_self {α : Type} (k : Str) (v : α) :
    ∀ m : List (Str × α), m.any (fun p => p.1 == k) = true →
      List.lookup k (m.map (fun p => if p.1 == k then (k, v) else p)) = some v := by
  intro m
  induction m with
  | nil => intro h; simp at h
  | cons p rest ih =>
    intro h
    obtain ⟨a, b⟩ := p
    by_cases hak : (a == k) = true
    · simp only [List.map_cons, hak, if_true]
      rw [List.lookup]
      simp
    · have hak' : (a == k) = false := by simpa using hak
      simp only [List.any_cons, hak', Bool.false_or] at h
      simp only [List.map_cons, hak', Bool.false_eq_true, if_false]
      rw [List.lookup]
      have hka : (k == a) = false := by
        rw [beq_eq_false_iff_ne] at hak' ⊢
        exact fun he => hak' he.symm
      rw [hka]
      exact ih h

lemma lookup_append_new {α : Type} (k tid : Str) (v : α) :
    ∀ m : List (Str × α), m.any (fun p => p.1 == k) = false →
      List.lookup tid (m ++ [(k, v)]) =
        if tid == k then some v else List.lookup tid m := by
  intro m
  induction m with
  | nil =>
    intro _
    simp only [List.nil_append, List.lookup]
    cases htk : (tid == k) with
    | true => simp [htk]
    | false => simp [htk]
  | cons p rest ih =>
    intro h
    obtain ⟨a, b⟩ := p
    simp only [List.any_cons, Bool.or_eq_false_iff] at h
    obtain ⟨hak, hrest⟩ := h
    simp only [List.cons_append]
    rw [List.lookup, List.lookup]
    cases hta : (tid == a) with
    | true =>
      have htk : (tid == k) = false := by
        have h1 : tid = a := eq_of_beq hta
        rw [beq_eq_false_iff_ne] at hak ⊢
        rw [h1]
        exact hak
      rw [htk]
      simp
    | false => rw [ih hrest]

lemma lookup_insertReplace {α : Type} (k tid : Str) (v : α) (m : List (Str × α)) :
    List.lookup tid (insertReplace m k v) =
      if tid == k then some v else List.lookup tid m := by
  unfold insertReplace
  by_cases hany : m.any (fun p => p.1 == k) = true
  · rw [if_pos hany]
    cases htk : (tid == k) with
    | true =>
      have : tid = k := eq_of_beq htk
      subst this
      rw [if_pos rfl]
      exact lookup_map_replace_self tid v m hany
    | false =>
      simp only [Bool.false_eq_true, if_false]
      exact lookup_map_replace k tid v htk m
  · have hany' : m.any (fun p => p.1 == k) = false := Bool.eq_false_iff.mpr hany
    rw [if_neg hany]
    exact lookup_append_new k tid v m hany'

lemma routeStep_invalid {nodeIdByToolName : List (Str × Str)}
    {nodes : List PipelineNodeConfig} {resp : InferenceResponse}
    {parseBlock : NodeType → InferenceResponse → Str → Option OutputData}
    {outputs : List (Str × OutputData)} {tc : RawToolCall}
    (h : validCall nodeIdByToolName nodes tc = false) :
    routeStep nodeIdByToolName nodes resp parseBlock outputs tc = outputs := by
  unfold validCall at h
  unfold routeStep
  cases hl : List.lookup tc.toolName nodeIdByToolName with
  | none => rfl
  | some tid =>
    rw [hl] at h
    dsimp only at h ⊢
    simp only [Bool.and_eq_false_iff, Bool.not_eq_false'] at h
    rcases h with h | h
    · rw [if_pos (by simpa using h)]
    · have hfind : nodes.find? (fun n => n.id == tid) = none := by
        rw [List.find?_eq_none]
        intro n hn
        have := List.any_eq_false.mp h n hn
        simpa using this
      by_cases ht : tid = []
      · rw [if_pos ht]
      · rw [if_neg ht, hfind]

lemma route_foldl_filter (nodeIdByToolName : List (Str × Str))
    (nodes : List PipelineNodeConfig) (resp : InferenceResponse)
    (parseBlock : NodeType → InferenceResponse → Str → Option OutputData) :
    ∀ (tcs : List RawToolCall) (acc : List (Str × OutputData)),
      tcs.foldl (routeStep nodeIdByToolName nodes resp parseBlock) acc =
        (tcs.filter (validCall nodeIdByToolName nodes)).foldl
          (routeStep nodeIdByToolName nodes resp parseBlock) acc := by
  intro tcs
  induction tcs with
  | nil => intro acc; rfl
  | cons tc rest ih =>
    intro acc
    rw [List.filter_cons]
    cases hv : validCall nodeIdByToolName nodes tc with
    | true =>
      simp only [if_true]
      rw [List.foldl_cons, List.foldl_cons, ih]
    | false =>
      simp only [Bool.false_eq_true, if_false]
      rw [List.foldl_cons, routeStep_invalid hv, ih]

lemma routeStep_preserves_isSome {nodeIdByToolName : List (Str × Str)}
    {nodes : List PipelineNodeConfig} {resp : InferenceResponse}
    {parseBlock : NodeType → InferenceResponse → Str → Option OutputData}
    {outputs : List (Str × OutputData)} {tid : Str} {tc : RawToolCall}
    (h : (List.lookup tid outputs).isSome = true) :
    (List.lookup tid (routeStep nodeIdByToolName nodes resp parseBlock outputs tc)).isSome =
      true := by
  unfold routeStep
  cases hl : List.lookup tc.toolName nodeIdByToolName with
  | none => exact h
  | some target =>
    dsimp only
    by_cases ht : target = []
    · rw [if_pos ht]
      exact h
    · rw [if_neg ht]
      cases hf : nodes.find? (fun n => n.id == target) with
      | none => exact h
      | some n =>
        dsimp only
        cases hp : parseBlock n.type resp target with
        | none => exact h
        | some parsed =>
          dsimp only
          rw [lookup_insertReplace]
          by_cases htt : (tid == target) = true
          · rw [if_pos htt]
            rfl
          · rw [if_neg htt]
            exact h

lemma routeStep_writes {nodeIdByToolName : List (Str × Str)}
    {nodes : List PipelineNodeConfig} {resp : InferenceResponse}
    {parseBlock : NodeType → InferenceResponse → Str → Option OutputData}
    {tid : Str} {n : PipelineNodeConfig} {tc : RawToolCall}
    (hl : List.lookup tc.toolName nodeIdByToolName = some tid) (ht : tid ≠ [])
    (hf : nodes.find? (fun x => x.id == tid) = some n)
    (hp : (parseBlock n.type resp tid).isSome = true)
    (outputs : List (Str × OutputData)) :
    (List.lookup tid (routeStep nodeIdByToolName nodes resp parseBlock outputs tc)).isSome =
      true := by
  unfold routeStep
  rw [hl]
  dsimp only
  rw [if_neg ht, hf]
  dsimp only
  cases hpv : parseBlock n.type resp tid with
  | none =>
    rw [hpv] at hp
    simp at hp
  | some parsed =>
    dsimp only
    rw [lookup_insertReplace]
    simp

lemma route_foldl_preserves_isSome {nodeIdByToolName : List (Str × Str)}
    {nodes : List PipelineNodeConfig} {resp : InferenceResponse}
    {parseBlock : NodeType → InferenceResponse → Str → Option OutputData} {tid : Str} :
    ∀ (tcs : List RawToolCall) (acc : List (Str × OutputData)),
      (List.lookup tid acc).isSome = true →
      (List.lookup tid
        (tcs.foldl (routeStep nodeIdByToolName nodes resp parseBlock) acc)).isSome = true := by
  intro tcs
  induction tcs with
  | nil => exact fun acc h => h
  | cons tc rest ih =>
    intro acc h
    exact ih _ (routeStep_preserves_isSome h)

/-- C10: `routeToolCalls` silently skips every call whose tool name is
unowned or whose owning node id is falsy or matches no pipeline node —
routing is identical to routing only the routable calls — and every
routable call whose owner's parser succeeds still ends with an output
recorded under its owning node id. -/
theorem claim_C10_unroutable_calls_skipped (toolCalls : List RawToolCall)
    (nodeIdByToolName : List (Str × Str)) (nodes : List PipelineNodeConfig)
    (resp : InferenceResponse)
    (parseBlock : NodeType → InferenceResponse → Str → Option OutputData) :
    routeToolCalls toolCalls nodeIdByToolName nodes resp parseBlock =
      routeToolCalls (toolCalls.filter (validCall nodeIdByToolName nodes))
        nodeIdByToolName nodes resp parseBlock ∧
    (∀ tc ∈ toolCalls, ∀ tid n,
      List.lookup tc.toolName nodeIdByToolName = some tid → tid ≠ [] →
      nodes.find? (fun x => x.id == tid) = some n →
      (parseBlock n.type resp tid).isSome = true →
      (List.lookup tid
        (routeToolCalls toolCalls nodeIdByToolName nodes resp parseBlock)).isSome = true) := by
  constructor
  · exact route_foldl_filter nodeIdByToolName nodes resp parseBlock toolCalls []
  · intro tc htc tid n hl ht hf hp
    unfold routeToolCalls
    have hgen : ∀ (tcs : List RawToolCall) (acc : List (Str × OutputData)), tc ∈ tcs →
        (List.lookup tid
          (tcs.foldl (routeStep nodeIdByToolName nodes resp parseBlock) acc)).isSome =
          true := by
      intro tcs
      induction tcs with
      | nil =>
        intro acc hmem
        simp at hmem
      | cons hd rest ih =>
        intro acc hmem
        rcases List.mem_cons.mp hmem with rfl | hmem
        · rw [List.foldl_cons]
          exact route_foldl_preserves_isSome rest _ (routeStep_writes hl ht hf hp acc)
        · rw [List.foldl_cons]
          exact ih _ hmem
    exact hgen toolCalls [] htc

/-- Demo data for routing: a color node owning `display_color`. -/
def demoColorNodeC10 : PipelineNodeConfig := ⟨"c10".toList, .color_display, none, [], false⟩

def demoCallC10 : RawToolCall :=
  ⟨"display_color".toList, "t0".toList, .obj [("hex".toList, .str "#123abc".toList)]⟩

def demoRespC10 : InferenceResponse := ⟨[], [demoCallC10], none⟩

def demoMapC10 : List (Str × Str) := [("display_color".toList, "c10".toList)]

/-- C10 witness: the skip/route theorem applied at a concrete
single-call routing instance. -/
theorem claim_C10_witness :
    (routeToolCalls [demoCallC10] demoMapC10 [demoColorNodeC10] demoRespC10
        parseBlockOutputModel =
      routeToolCalls ([demoCallC10].filter (validCall demoMapC10 [demoColorNodeC10]))
        demoMapC10 [demoColorNodeC10] demoRespC10 parseBlockOutputModel) ∧
    (List.lookup "c10".toList
      (routeToolCalls [demoCallC10] demoMapC10 [demoColorNodeC10] demoRespC10
        parseBlockOutputModel)).isSome = true :=
  ⟨(claim_C10_unroutable_calls_skipped [demoCallC10] demoMapC10 [demoColorNodeC10]
      demoRespC10 parseBlockOutputModel).1,
    (claim_C10_unroutable_calls_skipped [demoCallC10] demoMapC10 [demoColorNodeC10]
      demoRespC10 parseBlockOutputModel).2 demoCallC10 (List.mem_cons_self _ _)
      "c10".toList demoColorNodeC10 rfl (by decide) rfl rfl⟩

/-! ## C2: the pixel-art parser performs no grid validation -/

def unequalRowsInput : JsonVal :=
  .obj [("colors".toList, .obj [("W".toList, .str "#ffffff".toList)]),
        ("grid".toList, .arr [.str "WW".toList, .str "W".toList])]

def unequalRowsCall : RawToolCall :=
  ⟨"generate_pixel_art".toList, "t1".toList, unequalRowsInput⟩

def unequalRowsResp : InferenceResponse := ⟨[], [unequalRowsCall], none⟩

/-- C2 counterexample: a pixel-art payload whose grid rows have unequal
lengths (2 and 1; its dimensions also lie far below the 32-128 range) is
NOT rejected — the parser writes an output for it. -/
theorem claim_C2_counterexample :
    (pixelArtParse unequalRowsResp).isSome = true ∧
    (pixelArtParse unequalRowsResp).map (fun o => o.grid.map jsRowLength) =
      some [2, 1] := by
  constructor
  · rfl
  · rfl

/-- C2 (amended): the pixel-art parser writes an output exactly when the
first matching pixel-art tool call has a truthy input whose `colors`
value is truthy and whose `grid` is a non-empty array. Equal row lengths,
the 32-128 dimension range and the 32-color palette bound are stated only
in the prompt text the node contributes, and are not enforced by the
parser. -/
theorem claim_C2_pixel_art_acceptance (resp : InferenceResponse) :
    (pixelArtParse resp).isSome = true ↔
      ∃ tc, resp.toolCalls.find? (fun t => isPixelArtToolCallName t.toolName) = some tc ∧
        jsTruthy tc.input = true ∧
        (∃ cv, jsGet tc.input "colors".toList = some cv ∧ jsTruthy cv = true) ∧
        (∃ rows, jsGet tc.input "grid".toList = some (.arr rows) ∧ rows ≠ []) := by
  unfold pixelArtParse
  cases hfind : resp.toolCalls.find? (fun t => isPixelArtToolCallName t.toolName) with
  | none => simp
  | some tc =>
    dsimp only
    constructor
    · intro hsome
      by_cases hti : jsTruthy tc.input = true
      · rw [if_pos hti] at hsome
        refine ⟨tc, rfl, hti, ?_⟩
        cases hc : jsGet tc.input "colors".toList with
        | none =>
          rw [hc] at hsome
          cases hg : jsGet tc.input "grid".toList <;> rw [hg] at hsome <;> simp at hsome
        | some cv =>
          rw [hc] at hsome
          cases hg : jsGet tc.input "grid".toList with
          | none =>
            rw [hg] at hsome
            simp at hsome
          | some gv =>
            rw [hg] at hsome
            dsimp only at hsome
            by_cases hcv : jsTruthy cv = true
            · rw [if_pos hcv] at hsome
              cases gv with
              | arr rows =>
                by_cases hrows : rows.length > 0
                · refine ⟨⟨cv, rfl, hcv⟩, rows, rfl, ?_⟩
                  intro hnil
                  rw [hnil] at hrows
                  simp at hrows
                · dsimp only at hsome
                  rw [if_neg hrows] at hsome
                  simp at hsome
              | null => simp at hsome
              | bool b => simp at hsome
              | num x => simp at hsome
              | str s => simp at hsome
              | obj fs => simp at hsome
            · rw [if_neg hcv] at hsome
              simp at hsome
      · rw [if_neg hti] at hsome
        simp at hsome
    · rintro ⟨tc', htc', hti, ⟨cv, hcv, hcvt⟩, ⟨rows, hrows, hrne⟩⟩
      have : tc' = tc := (Option.some_inj.mp htc').symm
      subst this
      rw [if_pos hti, hcv, hrows]
      dsimp only
      rw [if_pos hcvt]
      rw [if_pos (by simpa [List.length_pos] using hrne)]
      rfl

/-! ## C7: the color parser copies hex without validation -/

def colorNodeC7 : PipelineNodeConfig := ⟨"c1".toList, .color_display, none, [], false⟩

def badHexCall : RawToolCall :=
  ⟨"display_color".toList, "t2".toList, .obj [("hex".toList, .str "zzz".toList)]⟩

def badHexResp : InferenceResponse := ⟨[], [badHexCall], none⟩

def mapC7 : List (Str × Str) := [("display_color".toList, "c1".toList)]

/-- Specification-side: the pattern `^#[0-9a-fA-F]{6}$`. -/
def matchesHexPattern (s : Str) : Bool :=
  (s.length == 7) && (s.head? == some '#') &&
    (s.drop 1).all (fun c => c.isDigit ||
      (decide ('a' ≤ c) && decide (c ≤ 'f')) ||
      (decide ('A' ≤ c) && decide (c ≤ 'F')))

/-- C7 counterexample: a color payload whose hex value matches no part of
`^#[0-9a-fA-F]{6}$` still produces an output routed to the color node,
with the invalid hex copied verbatim. -/
theorem claim_C7_counterexample :
    matchesHexPattern "zzz".toList = false ∧
    List.lookup "c1".toList
      (routeToolCalls [badHexCall] mapC7 [colorNodeC7] badHexResp parseBlockOutputModel) =
      some (.colorOut ⟨some (.str "zzz".toList), none, none⟩) := by
  constructor
  · decide
  · rfl

lemma routeStep_keeps_none_for {m : List (Str × Str)}
    {nodes : List PipelineNodeConfig} {resp : InferenceResponse} {nid : Str}
    {n : PipelineNodeConfig}
    (hfind : nodes.find? (fun x => x.id == nid) = some n)
    (htype : n.type = .color_display) (hparse : colorParse resp = none)
    {outputs : List (Str × OutputData)}
    (h : List.lookup nid outputs = none) (tc : RawToolCall) :
    List.lookup nid (routeStep m nodes resp parseBlockOutputModel outputs tc) = none := by
  unfold routeStep
  cases hl : List.lookup tc.toolName m with
  | none => exact h
  | some target =>
    dsimp only
    by_cases ht : target = []
    · rw [if_pos ht]
      exact h
    · rw [if_neg ht]
      cases hf : nodes.find? (fun x => x.id == target) with
      | none => exact h
      | some tn =>
        dsimp only
        cases hpv : parseBlockOutputModel tn.type resp target with
        | none => exact h
        | some parsed =>
          dsimp only
          rw [lookup_insertReplace]
          by_cases hnt : (nid == target) = true
          · exfalso
            have he : target = nid := (eq_of_beq hnt).symm
            rw [he, hfind] at hf
            have htn : n = tn := Option.some_inj.mp hf
            rw [← htn, htype] at hpv
            unfold parseBlockOutputModel at hpv
            rw [hparse] at hpv
            simp at hpv
          · rw [if_neg hnt]
            exact h

/-- C7 (amended): the color parser copies `hex` (along with `name` and
`explanation`) verbatim out of any matching color tool call with a truthy
input — the `^#[0-9a-fA-F]{6}$` pattern exists only in the tool's JSON
schema and is never checked at parse time — and when no matching color
call with a truthy input exists, the router writes nothing for a color
node, so its previous output persists. -/
theorem claim_C7_hex_unvalidated :
    (∀ (resp : InferenceResponse) (tc : RawToolCall),
      resp.toolCalls.find? (fun t => isColorToolCallName t.toolName) = some tc →
      jsTruthy tc.input = true →
      colorParse resp = some ⟨jsGet tc.input "hex".toList, jsGet tc.input "name".toList,
        jsGet tc.input "explanation".toList⟩) ∧
    (∀ (resp : InferenceResponse) (tcs : List RawToolCall) (m : List (Str × Str))
      (nodes : List PipelineNodeConfig) (nid : Str) (n : PipelineNodeConfig),
      nodes.find? (fun x => x.id == nid) = some n → n.type = .color_display →
      colorParse resp = none →
      List.lookup nid (routeToolCalls tcs m nodes resp parseBlockOutputModel) = none) := by
  constructor
  · intro resp tc hfind hti
    unfold colorParse
    rw [hfind]
    dsimp only
    rw [if_pos hti]
  · intro resp tcs m nodes nid n hfind htype hparse
    unfold routeToolCalls
    have hgen : ∀ (l : List RawToolCall) (acc : List (Str × OutputData)),
        List.lookup nid acc = none →
        List.lookup nid (l.foldl (routeStep m nodes resp parseBlockOutputModel) acc) =
          none := by
      intro l
      induction l with
      | nil => exact fun acc h => h
      | cons tc rest ih =>
        intro acc h
        exact ih _ (routeStep_keeps_none_for hfind htype hparse h tc)
    exact hgen tcs [] rfl

/-- C7 witness: the amended theorem applied at the concrete invalid-hex
response (acceptance part) and at an empty response with the color node
present (persistence part). -/
theorem claim_C7_witness :
    colorParse badHexResp = some ⟨some (.str "zzz".toList), none, none⟩ ∧
    List.lookup "c1".toList
      (routeToolCalls [] mapC7 [colorNodeC7] ⟨[], [], none⟩ parseBlockOutputModel) =
      none :=
  ⟨claim_C7_hex_unvalidated.1 badHexResp badHexCall rfl rfl,
    claim_C7_hex_unvalidated.2 ⟨[], [], none⟩ [] mapC7 [colorNodeC7] "c1".toList
      colorNodeC7 rfl rfl rfl⟩

/-! ## Genie self-inference (hooks/useGenieState.ts `selfInference`) -/

inductive GenieRole
  | user | assistant
  deriving DecidableEq, Repr

structure GenieMessage where
  role : GenieRole
  content : Str
  deriving DecidableEq, Repr

/-- `GenieOutput` — a genie node's conversation state. -/
structure GenieOutput where
  messages : List GenieMessage
  deriving DecidableEq, Repr

/-- The state `useGenieState` reads and writes: the node list, the
conversations keyed by node id, and the single UI loading id. -/
structure GenieState where
  nodes : List PipelineNodeConfig
  genieConversations : List (Str × GenieOutput)
  loadingNodeId : Option Str
  deriving DecidableEq, Repr

/-- The guard at the top of `selfInference` (lines 43-44): the trigger
proceeds exactly when the node exists and is a genie node. No in-flight
or loading flag is consulted. -/
def selfInferenceAccepted (nodes : List PipelineNodeConfig) (nodeId : Str) : Bool :=
  match nodes.find? (fun n => n.id == nodeId) with
  | some n => n.type == .genie
  | none => false

/-- One in-flight `selfInference` call: the awaited `runInference`
together with the conversation snapshot captured before the call
(`genieConversations[nodeId] || { messages: [] }`). -/
structure InFlightCall where
  nodeId : Str
  userMessage : Str
  snapshot : List GenieMessage
  deriving DecidableEq, Repr

/-- Machine state while self-inference calls may be in flight. -/
structure GenieMachine where
  state : GenieState
  inFlight : List InFlightCall
  deriving DecidableEq, Repr

/-- Executing `selfInference(nodeId, userMessage)` up to its `await`: a
failed guard returns with no effect and no call; otherwise the
conversation is snapshotted, `loadingNodeId` is set and the model call
starts. The Boolean reports whether a call was accepted. -/
def triggerSelfInference (m : GenieMachine) (nodeId userMessage : Str) :
    GenieMachine × Bool :=
  if selfInferenceAccepted m.state.nodes nodeId then
    let snapshot := ((List.lookup nodeId m.state.genieConversations).getD ⟨[]⟩).messages
    (⟨⟨m.state.nodes, m.state.genieConversations, some nodeId⟩,
      m.inFlight ++ [⟨nodeId, userMessage, snapshot⟩]⟩, true)
  else (m, false)

/-- Outcome of the awaited `runInference`: a successful reply, an error
result (`result.error` set), or a thrown transport error. -/
inductive InferenceOutcome
  | success (replyText : Str)
  | errorResult (e : Str)
  | thrown
  deriving DecidableEq, Repr

/-- Completing one in-flight call (lines 82-99 of `selfInference`): a
successful result stores snapshot + `{user, userMessage}` +
`{assistant, replyText}` as the node's conversation; an error result or a
thrown error leaves every conversation untouched; the `finally` clause
clears the loading id in all cases. -/
def completeSelfInference (m : GenieMachine) (call : InFlightCall)
    (outcome : InferenceOutcome) : GenieMachine :=
  let remaining := m.inFlight.erase call
  match outcome with
  | .success replyText =>
    ⟨⟨m.state.nodes,
      insertReplace m.state.genieConversations call.nodeId
        ⟨call.snapshot ++ [⟨.user, call.userMessage⟩, ⟨.assistant, replyText⟩]⟩,
      none⟩, remaining⟩
  | _ => ⟨⟨m.state.nodes, m.state.genieConversations, none⟩, remaining⟩

/-- A whole `selfInference` call run to completion with no interleaving:
trigger, then completion of that same call. -/
def selfInferenceRun (m : GenieMachine) (nodeId userMessage : Str)
    (outcome : InferenceOutcome) : GenieMachine :=
  let t := triggerSelfInference m nodeId userMessage
  if t.2 then
    completeSelfInference t.1
      ⟨nodeId, userMessage,
        ((List.lookup nodeId m.state.genieConversations).getD ⟨[]⟩).messages⟩
      outcome
  else t.1

/-- The demo genie pipeline used by concrete instances. -/
def demoGenieNode : PipelineNodeConfig :=
  ⟨"genie-1".toList, .genie, some "genie".toList, "You are a helpful genie.".toList, false⟩

def demoGenieMachine : GenieMachine := ⟨⟨[demoGenieNode], [], none⟩, []⟩

/-- C6 counterexample: two rapid triggers on the same genie node are BOTH
accepted — the trigger guard consults no in-flight state — leaving two
calls in flight, where the claim requires the second to be rejected. -/
theorem claim_C6_counterexample :
    (triggerSelfInference demoGenieMachine "genie-1".toList "hi".toList).2 = true ∧
    (triggerSelfInference
      (triggerSelfInference demoGenieMachine "genie-1".toList "hi".toList).1
      "genie-1".toList "hi again".toList).2 = true ∧
    (triggerSelfInference
      (triggerSelfInference demoGenieMachine "genie-1".toList "hi".toList).1
      "genie-1".toList "hi again".toList).1.inFlight.length = 2 := by
  refine ⟨rfl, rfl, rfl⟩

/-- C6 (amended): acceptance of a self-inference trigger depends only on
the node existing with kind genie — never on calls already in flight — so
a second trigger during an in-flight call for the same node id is also
accepted, and both calls are in flight afterwards. -/
theorem claim_C6_no_inflight_rejection (m : GenieMachine) (g msg1 msg2 : Str)
    (h : selfInferenceAccepted m.state.nodes g = true) :
    (triggerSelfInference m g msg1).2 = true ∧
    (triggerSelfInference (triggerSelfInference m g msg1).1 g msg2).2 = true ∧
    ((triggerSelfInference (triggerSelfInference m g msg1).1 g msg2).1.inFlight.filter
        (fun c => c.nodeId == g)).length =
      (m.inFlight.filter (fun c => c.nodeId == g)).length + 2 := by
  have h1 : triggerSelfInference m g msg1 =
      (⟨⟨m.state.nodes, m.state.genieConversations, some g⟩,
        m.inFlight ++ [⟨g, msg1,
          ((List.lookup g m.state.genieConversations).getD ⟨[]⟩).messages⟩]⟩, true) := by
    unfold triggerSelfInference
    rw [if_pos h]
  rw [h1]
  have h2 : selfInferenceAccepted
      (⟨⟨m.state.nodes, m.state.genieConversations, some g⟩,
        m.inFlight ++ [⟨g, msg1,
          ((List.lookup g m.state.genieConversations).getD ⟨[]⟩).messages⟩]⟩ :
        GenieMachine).state.nodes g = true := h
  refine ⟨rfl, ?_, ?_⟩
  · unfold triggerSelfInference
    rw [if_pos h2]
  · unfold triggerSelfInference
    rw [if_pos h2]
    simp [List.filter_append]

/-- C6 witness: both triggers accepted at the concrete demo machine. -/
theorem claim_C6_witness :
    selfInferenceAccepted demoGenieMachine.state.nodes "genie-1".toList = true ∧
    ((triggerSelfInference demoGenieMachine "genie-1".toList "a".toList).2 = true ∧
      (triggerSelfInference
        (triggerSelfInference demoGenieMachine "genie-1".toList "a".toList).1
        "genie-1".toList "b".toList).2 = true ∧
      ((triggerSelfInference
        (triggerSelfInference demoGenieMachine "genie-1".toList "a".toList).1
        "genie-1".toList "b".toList).1.inFlight.filter
          (fun c => c.nodeId == "genie-1".toList)).length =
        (demoGenieMachine.inFlight.filter
          (fun c => c.nodeId == "genie-1".toList)).length + 2) :=
  ⟨by decide, claim_C6_no_inflight_rejection demoGenieMachine "genie-1".toList
    "a".toList "b".toList (by decide)⟩

/-- C9: an accepted self-inference call run to completion appends exactly
the `{user, userMessage}` then `{assistant, replyText}` pair to the
node's conversation on success (leaving every other node's conversation
untouched), and leaves all conversations exactly as they were on an error
result or a thrown error. -/
theorem claim_C9_success_appends_failure_noop (m : GenieMachine)
    (nodeId userMessage replyText e : Str)
    (h : selfInferenceAccepted m.state.nodes nodeId = true) :
    (List.lookup nodeId
        (selfInferenceRun m nodeId userMessage (.success replyText)).state.genieConversations =
      some ⟨((List.lookup nodeId m.state.genieConversations).getD ⟨[]⟩).messages ++
        [⟨.user, userMessage⟩, ⟨.assistant, replyText⟩]⟩) ∧
    (∀ other, (other == nodeId) = false →
      List.lookup other
          (selfInferenceRun m nodeId userMessage (.success replyText)).state.genieConversations =
        List.lookup other m.state.genieConversations) ∧
    ((selfInferenceRun m nodeId userMessage (.errorResult e)).state.genieConversations =
      m.state.genieConversations) ∧
    ((selfInferenceRun m nodeId userMessage .thrown).state.genieConversations =
      m.state.genieConversations) := by
  have htrig : ∀ msg : Str, triggerSelfInference m nodeId msg =
      (⟨⟨m.state.nodes, m.state.genieConversations, some nodeId⟩,
        m.inFlight ++ [⟨nodeId, msg,
          ((List.lookup nodeId m.state.genieConversations).getD ⟨[]⟩).messages⟩]⟩, true) := by
    intro msg
    unfold triggerSelfInference
    rw [if_pos h]
  refine ⟨?_, ?_, ?_, ?_⟩
  · unfold selfInferenceRun
    rw [htrig]
    dsimp only
    rw [if_pos rfl]
    unfold completeSelfInference
    dsimp only
    rw [lookup_insertReplace]
    simp
  · intro other hother
    unfold selfInferenceRun
    rw [htrig]
    dsimp only
    rw [if_pos rfl]
    unfold completeSelfInference
    dsimp only
    rw [lookup_insertReplace, hother]
    simp
  · unfold selfInferenceRun
    rw [htrig]
    dsimp only
    rw [if_pos rfl]
    rfl
  · unfold selfInferenceRun
    rw [htrig]
    dsimp only
    rw [if_pos rfl]
    rfl

/-- C9 witness: the atomic-commit theorem applied at the demo machine. -/
theorem claim_C9_witness :
    selfInferenceAccepted demoGenieMachine.state.nodes "genie-1".toList = true ∧
    List.lookup "genie-1".toList
        (selfInferenceRun demoGenieMachine "genie-1".toList "hello".toList
          (.success "greetings".toList)).state.genieConversations =
      some ⟨((List.lookup "genie-1".toList
          demoGenieMachine.state.genieConversations).getD ⟨[]⟩).messages ++
        [⟨.user, "hello".toList⟩, ⟨.assistant, "greetings".toList⟩]⟩ :=
  ⟨by decide,
    (claim_C9_success_appends_failure_noop demoGenieMachine "genie-1".toList
      "hello".toList "greetings".toList "err".toList (by decide)).1⟩

end Aili5
